import Mathlib

/-!
Verification development for the hanfried-db storage engine.

The Lean definitions below are shallow embeddings of the Rust sources:
machine bytes become natural numbers below 256, byte buffers become lists
of naturals, u64 becomes a natural number below 2 to the 64, i64 and i32
become integers in the two-complement ranges, and Rust panics (slice
index out of range, unwrap on Err) become the value none of an Option.
Every definition is translated from the source file named in its
doc comment.
-/

namespace HanfriedDb

/-- Big-endian byte list of a natural number using exactly n bytes,
most significant byte first; mirrors the effect of to_be_bytes followed
by taking the last n bytes of the array. -/
def beBytes : Nat → Nat → List Nat
  | 0, _ => []
  | n + 1, v => beBytes n (v / 256) ++ [v % 256]

/-- Little-endian byte list of a natural number using exactly n bytes,
least significant byte first; mirrors to_le_bytes. -/
def leBytes : Nat → Nat → List Nat
  | 0, _ => []
  | n + 1, v => v % 256 :: leBytes n (v / 256)

/-- Reads a big-endian byte list back into a natural number; mirrors
from_be_bytes. -/
def fromBEBytes (bs : List Nat) : Nat :=
  bs.foldl (fun acc b => acc * 256 + b) 0

/-- Reads a little-endian byte list back into a natural number; mirrors
from_le_bytes. -/
def fromLEBytes : List Nat → Nat
  | [] => 0
  | b :: bs => b + 256 * fromLEBytes bs

/-- Interprets an unsigned 64-bit value as a signed i64 (two-complement
reading used by i64 from_be_bytes). -/
def toI64 (n : Nat) : Int :=
  if n < 2 ^ 63 then (n : Int) else (n : Int) - 2 ^ 64

/-- Interprets an unsigned 32-bit value as a signed i32 (two-complement
reading used by i32 from_le_bytes). -/
def toI32 (n : Nat) : Int :=
  if n < 2 ^ 31 then (n : Int) else (n : Int) - 2 ^ 32

/-- The 64-bit two-complement bit pattern of an i64 value, as a natural
number; mirrors the bytes produced by i64 to_be_bytes. -/
def twosComp64 (v : Int) : Nat := (v % ((2 : Int) ^ 64)).toNat

/-- The 32-bit two-complement bit pattern of an i32 value, as a natural
number; mirrors the bytes produced by i32 to_le_bytes. -/
def twosComp32 (v : Int) : Nat := (v % ((2 : Int) ^ 32)).toNat

/-- Rust cast of an i32 or i64 value to usize: the value is reduced
modulo 2 to the 64 (negative values wrap around). -/
def castUsize (v : Int) : Nat := (v % ((2 : Int) ^ 64)).toNat

/-! ## Varlength / Varcount codec

Source: src/datatypes/varlength.rs (struct Varlength, an unsigned u64
with a leading-ones length byte); the file src/datatypes/varcount.rs
declared in src/datatypes/mod.rs is not in the sources available here.
Per the spec (section 4.1), Varcount uses exactly the encoding of the
Varlength implementation below, so the same functions model both. -/

/-- Source: Varlength::serialized_length, src/datatypes/varlength.rs
lines 7-14. The loop over leading_bits in 1..=8 returning the first
leading_bits with value below 2 to the (7 * leading_bits) is unrolled
into a chain of conditionals; the fallthrough returns 9. -/
def varlengthSerializedLength (v : Nat) : Nat :=
  if v < 2 ^ 7 then 1
  else if v < 2 ^ 14 then 2
  else if v < 2 ^ 21 then 3
  else if v < 2 ^ 28 then 4
  else if v < 2 ^ 35 then 5
  else if v < 2 ^ 42 then 6
  else if v < 2 ^ 49 then 7
  else if v < 2 ^ 56 then 8
  else 9

/-- The constant OR-ed onto the first serialized byte for each length
in Varlength::serialize (the match on length, lines 21-30 of
src/datatypes/varlength.rs); length 1 and the unreachable arms OR
nothing. -/
def varlengthOrMask : Nat → Nat
  | 2 => 128
  | 3 => 192
  | 4 => 224
  | 5 => 240
  | 6 => 248
  | 7 => 252
  | 8 => 254
  | _ => 0

/-- Source: Varlength::serialize, src/datatypes/varlength.rs lines
16-35, as the byte sequence written into the buffer. For length at
most 8 the last length bytes of the big-endian u64 representation are
written and the length marker is OR-ed onto byte 0; for length 9 the
byte 255 is written followed by all eight value bytes. -/
def varlengthSerialize (v : Nat) : List Nat :=
  let bytesFull := beBytes 8 v
  let length := varlengthSerializedLength v
  if length ≤ 8 then
    (bytesFull.drop (8 - length)).modifyHead (fun b0 => b0 ||| varlengthOrMask length)
  else
    255 :: bytesFull

/-- Source: Varlength::deserialize, src/datatypes/varlength.rs lines
37-71. The match on byte 0 selects the byte length from the run of
leading one bits; the significant bytes are copied into the tail of an
eight byte zero array with the length marker masked off byte 0, and
the array is read back big-endian. Copying into the zero array and
reading back big-endian equals reading the masked significant bytes
directly, which is the form used here. An empty buffer would panic in
the source (index 0 out of range); that case is arbitrary here and the
buffered variant below models the panic. -/
def varlengthDeserialize : List Nat → Nat
  | [] => 0
  | b0 :: rest =>
    if b0 < 128 then b0
    else if b0 < 192 then fromBEBytes ((b0 &&& 63) :: rest.take 1)
    else if b0 < 224 then fromBEBytes ((b0 &&& 31) :: rest.take 2)
    else if b0 < 240 then fromBEBytes ((b0 &&& 15) :: rest.take 3)
    else if b0 < 248 then fromBEBytes ((b0 &&& 7) :: rest.take 4)
    else if b0 < 252 then fromBEBytes ((b0 &&& 3) :: rest.take 5)
    else if b0 < 254 then fromBEBytes ((b0 &&& 1) :: rest.take 6)
    else if b0 < 255 then fromBEBytes (rest.take 7)
    else fromBEBytes (rest.take 8)

/-- Buffered Varlength::serialize with the panic behaviour of the Rust
slice operations made explicit: copy_from_slice into buffer[..length]
panics unless the buffer holds at least length bytes, and for length 9
the copy into buffer[1..] panics unless the buffer holds exactly 9
bytes (copy_from_slice requires equal lengths). A panic is none; on
success the buffer holds the serialized bytes followed by its
untouched tail. Source: src/datatypes/varlength.rs lines 16-35. -/
def varlengthSerializeBuffered (v : Nat) (buffer : List Nat) : Option (List Nat) :=
  let length := varlengthSerializedLength v
  if length ≤ 8 then
    if length ≤ buffer.length then
      some (varlengthSerialize v ++ buffer.drop length)
    else none
  else
    if buffer.length = 9 then some (varlengthSerialize v) else none

/-- Buffered Varlength::deserialize with the panic behaviour explicit:
reading byte 0 of an empty buffer panics, and each branch copies
byte slices whose end is the byte length demanded by byte 0, panicking
when the buffer is shorter. Source: src/datatypes/varlength.rs lines
37-71. -/
def varlengthDeserializeBuffered (buffer : List Nat) : Option Nat :=
  match buffer with
  | [] => none
  | b0 :: _ =>
    let need :=
      if b0 < 128 then 1
      else if b0 < 192 then 2
      else if b0 < 224 then 3
      else if b0 < 240 then 4
      else if b0 < 248 then 5
      else if b0 < 252 then 6
      else if b0 < 254 then 7
      else if b0 < 255 then 8
      else 9
    if need ≤ buffer.length then some (varlengthDeserialize buffer) else none

/-! ## Varint codec

Source: src/datatypes/varint.rs (struct Varint, a signed i64). -/

/-- Source: Varint::serialized_length, src/datatypes/varint.rs lines
41-51. The loop over leading_bits in 1..=8 is unrolled; each test is
the verbatim condition of the source with power equal to 2 to the
(7 * leading_bits - 1): either power is at most the value and the
value is negative (a condition no integer satisfies, since power is
positive), or the value is nonnegative and below power. The
fallthrough returns 9. -/
def varintSerializedLength (v : Int) : Nat :=
  if (2 ^ 6 ≤ v ∧ v < 0) ∨ (0 ≤ v ∧ v < 2 ^ 6) then 1
  else if (2 ^ 13 ≤ v ∧ v < 0) ∨ (0 ≤ v ∧ v < 2 ^ 13) then 2
  else if (2 ^ 20 ≤ v ∧ v < 0) ∨ (0 ≤ v ∧ v < 2 ^ 20) then 3
  else if (2 ^ 27 ≤ v ∧ v < 0) ∨ (0 ≤ v ∧ v < 2 ^ 27) then 4
  else if (2 ^ 34 ≤ v ∧ v < 0) ∨ (0 ≤ v ∧ v < 2 ^ 34) then 5
  else if (2 ^ 41 ≤ v ∧ v < 0) ∨ (0 ≤ v ∧ v < 2 ^ 41) then 6
  else if (2 ^ 48 ≤ v ∧ v < 0) ∨ (0 ≤ v ∧ v < 2 ^ 48) then 7
  else if (2 ^ 55 ≤ v ∧ v < 0) ∨ (0 ≤ v ∧ v < 2 ^ 55) then 8
  else 9

/-- The transformation Varint::serialize applies to the first written
byte for each length: the match of src/datatypes/varint.rs lines
58-86, with the AND clearing the bit under the length marker and the
OR setting the marker (length 7 keeps the odd AND mask 237 of the
source; length 8 overwrites the byte with 254). -/
def varintMarkByte : Nat → Nat → Nat
  | 1, b0 => b0 &&& 127
  | 2, b0 => (b0 &&& 191) ||| 128
  | 3, b0 => (b0 &&& 223) ||| 192
  | 4, b0 => (b0 &&& 239) ||| 224
  | 5, b0 => (b0 &&& 247) ||| 240
  | 6, b0 => (b0 &&& 251) ||| 248
  | 7, b0 => (b0 &&& 237) ||| 252
  | 8, _ => 254
  | _, b0 => b0

/-- Source: Varint::serialize, src/datatypes/varint.rs lines 53-91, as
the byte sequence written into the buffer. For length at most 8 the
last length bytes of the big-endian i64 bit pattern are written and
byte 0 receives its length marker; for length 9 the byte 255 is
written followed by all eight bytes of the bit pattern. -/
def varintSerialize (v : Int) : List Nat :=
  let bytesFull := beBytes 8 (twosComp64 v)
  let length := varintSerializedLength v
  if length ≤ 8 then
    (bytesFull.drop (8 - length)).modifyHead (fun b0 => varintMarkByte length b0)
  else
    255 :: bytesFull

/-- The OR masks of fill_up_leading_zero_or_ones_for_two_complement
(src/datatypes/varint.rs lines 10-21) applied to the highest
significant byte when the decoded number is negative. -/
def varintFillOrMask : Nat → Nat
  | 1 => 128
  | 2 => 192
  | 3 => 224
  | 4 => 240
  | 5 => 248
  | 6 => 252
  | 7 => 254
  | _ => 255

/-- The AND masks of fill_up_leading_zero_or_ones_for_two_complement
(src/datatypes/varint.rs lines 22-33) applied to the highest
significant byte when the decoded number is nonnegative. -/
def varintFillAndMask : Nat → Nat
  | 1 => 127
  | 2 => 63
  | 3 => 31
  | 4 => 15
  | 5 => 7
  | 6 => 3
  | 7 => 1
  | _ => 0

/-- One deserialize branch of Varint::deserialize for leadingBits in
1..=7: the significant bytes b0 and the next (leadingBits - 1) buffer
bytes are placed at the tail of an eight byte array, then
fill_up_leading_zero_or_ones_for_two_complement (src lines 6-38) tests
the sign bit of b0 (the bit 128 shifted right by leadingBits), masks
or fills b0 accordingly, fills the leading bytes with 255 or 0, and
the array is read back as an i64. -/
def varintDecodeBranch (leadingBits b0 : Nat) (rest : List Nat) : Int :=
  let negative := 0 < b0 &&& (128 >>> leadingBits)
  let highest := if negative then b0 ||| varintFillOrMask leadingBits
                 else b0 &&& varintFillAndMask leadingBits
  let fill := if negative then 255 else 0
  toI64 (fromBEBytes (List.replicate (8 - leadingBits) fill
    ++ highest :: rest.take (leadingBits - 1)))

/-- Source: Varint::deserialize, src/datatypes/varint.rs lines 93-136.
The match on byte 0 selects the branch; branches for 1..=7 leading
bits call the fill helper, the branch for byte 254 copies seven bytes
and sign-extends byte 0 from the top bit of the next buffer byte, and
the branch for byte 255 reads all eight following bytes. An empty
buffer would panic in the source; that case is arbitrary here. -/
def varintDeserialize : List Nat → Int
  | [] => 0
  | b0 :: rest =>
    if b0 < 128 then varintDecodeBranch 1 b0 rest
    else if b0 < 192 then varintDecodeBranch 2 b0 rest
    else if b0 < 224 then varintDecodeBranch 3 b0 rest
    else if b0 < 240 then varintDecodeBranch 4 b0 rest
    else if b0 < 248 then varintDecodeBranch 5 b0 rest
    else if b0 < 252 then varintDecodeBranch 6 b0 rest
    else if b0 < 254 then varintDecodeBranch 7 b0 rest
    else if b0 < 255 then
      toI64 (fromBEBytes ((if rest.headD 0 ≤ 127 then 0 else 255) :: rest.take 7))
    else
      toI64 (fromBEBytes (rest.take 8))

/-- Buffered Varint::serialize with the panic behaviour of the slice
operations explicit, exactly as for Varlength: length at most 8 needs
a buffer of at least length bytes, length 9 needs exactly 9 bytes.
Source: src/datatypes/varint.rs lines 53-91. -/
def varintSerializeBuffered (v : Int) (buffer : List Nat) : Option (List Nat) :=
  let length := varintSerializedLength v
  if length ≤ 8 then
    if length ≤ buffer.length then
      some (varintSerialize v ++ buffer.drop length)
    else none
  else
    if buffer.length = 9 then some (varintSerialize v) else none

/-! ## Varchar codec

Source: src/datatypes/varchar.rs. A Varchar is a Varlength holding the
byte length together with a Rust String; here the String is modelled
by its UTF-8 byte list (String equality coincides with byte equality,
and from_utf8_lossy applied to the exact bytes of a valid String
returns that String). A deserialized Varchar is the pair of its
varlength field and its data bytes. -/

/-- Source: Varchar::serialize, src/datatypes/varchar.rs lines 15-19:
the varlength of the data length is serialized at offset 0 and the
data bytes are copied right after it. -/
def varcharSerialize (s : List Nat) : List Nat :=
  varlengthSerialize s.length ++ s

/-- Source: Varchar::deserialize, src/datatypes/varchar.rs lines
21-28: the varlength is deserialized from the buffer head, and the
data is the slice of that many bytes starting after the varlength
bytes. The result pair mirrors the two struct fields. -/
def varcharDeserialize (buffer : List Nat) : Nat × List Nat :=
  let n := varlengthDeserialize buffer
  (n, (buffer.drop (varlengthSerializedLength n)).take n)

/-! ## Varpair codec

Source: src/datatypes/varpair.rs, generic over two component codecs;
the component serializers, deserializers and length functions are
parameters here, mirroring the trait bounds. -/

/-- Source: Varpair::serialize, src/datatypes/varpair.rs lines 32-36:
the left value is serialized at offset 0 and the right value at offset
serialized_length of the left, which equals the byte length of the
left serialization whenever the component codec writes exactly
serialized_length bytes (the length-agreement conjunct proved for
every concrete codec). -/
def varpairSerialize {α β : Type} (serL : α → List Nat) (serR : β → List Nat)
    (p : α × β) : List Nat :=
  serL p.1 ++ serR p.2

/-- Source: Varpair::deserialize, src/datatypes/varpair.rs lines
38-42: the left value is deserialized from the buffer, then the right
value from the buffer at the offset given by the serialized_length of
the deserialized left value. -/
def varpairDeserialize {α β : Type} (deserL : List Nat → α) (lenL : α → Nat)
    (deserR : List Nat → β) (buffer : List Nat) : α × β :=
  let left := deserL buffer
  (left, deserR (buffer.drop (lenL left)))

/-! ## Fixed width counts and integers

Source: src/datatypes/fixed_length_counts.rs (TinyCount u8, SmallCount
u16, Count u32, BigCount u64, HugeCount u128, widths 1, 2, 4, 8, 16)
and src/datatypes/fixed_length_integers.rs (TinyInteger i8 through
HugeInteger i128). All ten implementations are the same code modulo
the byte width: serialize copies to_le_bytes into the buffer head and
deserialize reads the first width bytes with from_le_bytes; they are
modelled once with the width as a parameter. -/

/-- Fixed width unsigned serialize: the little-endian bytes of the
value (source serialized_length returns the width and serialize copies
to_le_bytes). -/
def fixedCountSerialize (width : Nat) (n : Nat) : List Nat :=
  leBytes width n

/-- Fixed width unsigned deserialize: from_le_bytes of the first width
buffer bytes. -/
def fixedCountDeserialize (width : Nat) (buffer : List Nat) : Nat :=
  fromLEBytes (buffer.take width)

/-- Fixed width signed serialize: the little-endian bytes of the
two-complement bit pattern of the value. -/
def fixedIntegerSerialize (width : Nat) (v : Int) : List Nat :=
  leBytes width ((v % ((2 : Int) ^ (8 * width))).toNat)

/-- Fixed width signed deserialize: from_le_bytes of the first width
buffer bytes read back as a signed two-complement value. -/
def fixedIntegerDeserialize (width : Nat) (buffer : List Nat) : Int :=
  let n := fromLEBytes (buffer.take width)
  if n < 2 ^ (8 * width - 1) then (n : Int) else (n : Int) - 2 ^ (8 * width)

/-! ## Page

Source: src/file_management/page.rs. A page is its byte buffer,
modelled as a list of naturals below 256. The slice operations panic
when out of range; a panic is none. -/

/-- Copy src into page at the given offset, mirroring the Rust slice
assignment page[offset..offset + src.len()].copy_from_slice(src),
which panics (none) when the range exceeds the page. -/
def listWriteAt (page : List Nat) (offset : Nat) (src : List Nat) : Option (List Nat) :=
  if offset + src.length ≤ page.length then
    some (page.take offset ++ src ++ page.drop (offset + src.length))
  else none

/-- Modelled from the spec: Page get_i32 is declared by callers in
src/memory_management/log_manager.rs but its body is only present as
a commented-out block in src/file_management/page.rs lines 25-31; per
the spec (sections 4.6 and 6) the boundary is stored as a 32-bit
little-endian signed integer, so get_i32 reads four bytes at the
offset with i32 from_le_bytes (none models the out-of-range panic). -/
def pageGetI32 (page : List Nat) (offset : Nat) : Option Int :=
  if offset + 4 ≤ page.length then
    some (toI32 (fromLEBytes ((page.drop offset).take 4)))
  else none

/-- Modelled from the spec: Page set_i32 (commented-out block in
src/file_management/page.rs lines 33-35, callers in the log manager);
it writes the four little-endian bytes of the i32 bit pattern at the
offset. -/
def pageSetI32 (page : List Nat) (offset : Nat) (v : Int) : Option (List Nat) :=
  listWriteAt page offset (leBytes 4 (twosComp32 v))

/-- Source: Page::set_bytes, src/file_management/page.rs lines 44-50:
a Varcount holding the value length is serialized at the offset
(Varcount is the Varlength encoding, see above), then the value bytes
are copied right after the Varcount bytes. -/
def pageSetBytes (page : List Nat) (offset : Nat) (value : List Nat) : Option (List Nat) :=
  match varlengthSerializeBuffered value.length (page.drop offset) with
  | none => none
  | some tail =>
    listWriteAt (page.take offset ++ tail)
      (offset + varlengthSerializedLength value.length) value

/-- Source: Page::get_bytes, src/file_management/page.rs lines 37-42:
a Varcount length is deserialized at the offset and that many bytes
are read right after the Varcount bytes. -/
def pageGetBytes (page : List Nat) (offset : Nat) : Option (List Nat) :=
  match varlengthDeserializeBuffered (page.drop offset) with
  | none => none
  | some n =>
    let start := offset + varlengthSerializedLength n
    if start + n ≤ page.length then
      some ((page.drop start).take n)
    else none

/-! ## LogManager

Source: src/memory_management/log_manager.rs. The log file is the
list of its blocks (each a page byte list); the head state carries the
in-memory head page, the head block number and the latest / last saved
log sequence numbers. File input and output succeed in this model
(claims about the log concern the in-memory control flow). -/

structure LogState where
  blockSize : Nat
  page : List Nat
  blockNum : Nat
  latest : Nat
  lastSaved : Nat
  fileBlocks : List (List Nat)
  deriving Repr, DecidableEq

/-- FileManager::write restricted to the log file: stores the page as
block b (blocks are created in order in every reachable state; the
padding arm keeps the function total). -/
def fileWrite (blocks : List (List Nat)) (b : Nat) (page : List Nat) : List (List Nat) :=
  if b < blocks.length then blocks.set b page
  else blocks ++ List.replicate (b - blocks.length) [] ++ [page]

/-- Source: LogManager::append_new_block, src/memory_management/
log_manager.rs lines 82-95: FileManager::append computes the new
block number as file length over block size, the boundary of the page
is set to block_size (as an i32) and the page is written to the new
block. -/
def appendNewBlock (bs : Nat) (blocks : List (List Nat)) (page : List Nat) :
    Option (Nat × List Nat × List (List Nat)) :=
  let blockNum := blocks.length * bs / bs
  match pageSetI32 page 0 (toI32 (bs % 2 ^ 32)) with
  | none => none
  | some page1 => some (blockNum, page1, fileWrite blocks blockNum page1)

/-- Source: LogManager::new, src/memory_management/log_manager.rs
lines 48-80, for an empty log file: append_new_block on a zeroed page,
with both sequence numbers zero. -/
def logInit (bs : Nat) : Option LogState :=
  match appendNewBlock bs [] (List.replicate bs 0) with
  | none => none
  | some (bn, pg, fb) =>
    some { blockSize := bs, page := pg, blockNum := bn, latest := 0,
           lastSaved := 0, fileBlocks := fb }

/-- Source: LogManager::flush and LogManager::_flush,
src/memory_management/log_manager.rs lines 97-114: when the given
sequence number is at least the LATEST sequence number of the head,
the head page is written to the current block and last_saved is set
to latest; otherwise nothing happens. -/
def logFlush (s : LogState) (lsn : Nat) : LogState :=
  if lsn ≥ s.latest then
    { s with fileBlocks := fileWrite s.fileBlocks s.blockNum s.page,
             lastSaved := s.latest }
  else s

/-- Source: LogManager::append, src/memory_management/log_manager.rs
lines 116-134. The boundary is read from the page head; when it is
below record length + 8 the head is flushed and a fresh block
allocated (resetting the boundary to block_size); the record position
is boundary minus (record length + 4); set_bytes writes the record at
that position (cast to usize, so a negative position wraps), set_i32
stores the new boundary and latest is incremented. The returned pair
is the LogPosition (latest, last_saved). -/
def logAppend (s : LogState) (record : List Nat) : Option (LogState × Nat × Nat) :=
  match pageGetI32 s.page 0 with
  | none => none
  | some boundary0 =>
    let bytesNeeded := record.length + 4
    let afterRotate : Option (List Nat × Nat × List (List Nat) × Nat × Option Int) :=
      if castUsize boundary0 < bytesNeeded + 4 then
        let fb := fileWrite s.fileBlocks s.blockNum s.page
        match appendNewBlock s.blockSize fb s.page with
        | none => none
        | some (bn, pg, fb1) => some (pg, bn, fb1, s.latest, pageGetI32 pg 0)
      else some (s.page, s.blockNum, s.fileBlocks, s.lastSaved, some boundary0)
    match afterRotate with
    | none => none
    | some (page1, blockNum1, fileBlocks1, lastSaved1, ob) =>
      match ob with
      | none => none
      | some boundary1 =>
        let recordPos : Int := boundary1 - (bytesNeeded : Int)
        match pageSetBytes page1 (castUsize recordPos) record with
        | none => none
        | some page2 =>
          match pageSetI32 page2 0 recordPos with
          | none => none
          | some page3 =>
            some ({ s with
                      page := page3
                      blockNum := blockNum1
                      fileBlocks := fileBlocks1
                      latest := s.latest + 1
                      lastSaved := lastSaved1 },
                  s.latest + 1, lastSaved1)

/-! ## BufferManager

Source: src/memory_management/buffer_manager.rs and
src/memory_management/buffer.rs, sequential semantics. Only the pin
count and bound block of each buffer matter to the availability
accounting; page contents and file traffic are orthogonal and
omitted. Waiting on the condition variable cannot succeed in a
sequential run, so an exhausted pool is the DeadLockTimeout outcome
(none). -/

structure BufState where
  pins : Nat
  block : Option Nat
  deriving Repr, DecidableEq, Inhabited

structure BMState where
  pool : List BufState
  numAvailable : Nat
  poolSize : Nat
  deriving Repr, DecidableEq

/-- Source: BufferManager::new, src/memory_management/
buffer_manager.rs lines 72-88: pool_size fresh unbound buffers with
pin count zero and num_available equal to pool_size. -/
def bmInit (poolSize : Nat) : BMState :=
  { pool := List.replicate poolSize { pins := 0, block := none },
    numAvailable := poolSize, poolSize := poolSize }

/-- The tail of BufferManager::try_to_pin (src lines 150-168): when
the chosen buffer is not pinned, num_available is decremented; then
the pin count is incremented. -/
def bmFinishPin (s : BMState) (i : Nat) : BMState × Nat :=
  let buf := s.pool.getD i default
  let s1 := if buf.pins = 0 then { s with numAvailable := s.numAvailable - 1 } else s
  ({ s1 with pool := s1.pool.set i { buf with pins := buf.pins + 1 } }, i)

/-- Source: BufferManager::pin / try_to_pin, src/memory_management/
buffer_manager.rs lines 127-169: the pool is scanned for a buffer
already bound to the block; otherwise choose_unpinned_buffer takes the
first buffer with pin count zero and Buffer::assign_to_block (buffer.rs
lines 95-118) binds it and resets its pin count to zero; when no
buffer is unpinned the sequential outcome is DeadLockTimeout (none).
The result is the new state and the index of the pinned buffer. -/
def bmPin (s : BMState) (b : Nat) : Option (BMState × Nat) :=
  match s.pool.findIdx? (fun buf => buf.block = some b) with
  | some i => some (bmFinishPin s i)
  | none =>
    match s.pool.findIdx? (fun buf => buf.pins = 0) with
    | some i =>
      some (bmFinishPin { s with pool := s.pool.set i { pins := 0, block := some b } } i)
    | none => none

/-- Source: BufferManager::unpin, src/memory_management/
buffer_manager.rs lines 108-125: the pin count of the buffer is
decremented and num_available is incremented UNCONDITIONALLY (the
source performs the increment and the notify on every call, whether or
not the pin count reached zero). -/
def bmUnpin (s : BMState) (i : Nat) : BMState :=
  let buf := s.pool.getD i default
  { s with pool := s.pool.set i { buf with pins := buf.pins - 1 },
           numAvailable := s.numAvailable + 1 }

/-- The number of buffers with pin count zero, the quantity the spec
equates with num_available. -/
def bmUnpinnedCount (s : BMState) : Nat :=
  (s.pool.filter (fun buf => buf.pins = 0)).length

/-! ## SyncResourceCache

Source: src/utils/sync_resource_cache.rs, sequential semantics. Keys
and resources are naturals; a factory is some value on success and
none on failure. In a sequential run the write-lock double check
(lines 92-98) sees exactly what the read probe saw, so its
refresh_access branch is unreachable; refresh_access itself is
modelled for reference and the compare-exchange loop of lines 63-76
terminates on its first iteration sequentially. -/

structure CacheEntry where
  key : Nat
  resource : Option Nat
  freshness : Nat
  deriving Repr, DecidableEq, Inhabited

structure CacheState where
  entries : List CacheEntry
  capacity : Nat
  openResources : Nat
  accessCounter : Nat
  deriving Repr, DecidableEq

inductive CacheOutcome where
  | ok (v : Nat)
  | err
  | panicked
  deriving Repr, DecidableEq

/-- Source: SyncResourceCache::new, src/utils/sync_resource_cache.rs
lines 31-38. -/
def cacheInit (capacity : Nat) : CacheState :=
  { entries := [], capacity := capacity, openResources := 0, accessCounter := 0 }

/-- HashMap get on the entry list. -/
def cacheLookup (entries : List CacheEntry) (k : Nat) : Option CacheEntry :=
  entries.find? (fun e => e.key = k)

/-- Source: SyncResourceCache::refresh_access, src/utils/
sync_resource_cache.rs lines 63-76, one loop iteration: the global
counter is fetch_add incremented (returning its old value) and the new
freshness is that old counter value plus half the old freshness. The
result is the pair (new counter, new freshness). -/
def refreshAccess (accessCounter freshness : Nat) : Nat × Nat :=
  (accessCounter + 1, accessCounter + freshness / 2)

/-- The minimal freshness among open entries (min_by_key over the
values with resource Some, source lines 104-108); none when no entry
is open. -/
def cacheMinFresh (entries : List CacheEntry) : Option Nat :=
  (entries.filterMap (fun e => if e.resource.isSome then some e.freshness else none)).min?

/-- Close the first open entry whose freshness is m (the entry chosen
by min_by_key; iteration order of the hash map is modelled as list
order), setting its resource to None and keeping its key, source line
111. -/
def closeFirstMinOpen : List CacheEntry → Nat → List CacheEntry
  | [], _ => []
  | e :: es, m =>
    if e.resource.isSome ∧ e.freshness = m then { e with resource := none } :: es
    else e :: closeFirstMinOpen es m

/-- HashMap insert of an open entry for the key with the given
freshness (source lines 115-121): replaces the entry with that key or
appends a new one. -/
def cacheInsert : List CacheEntry → Nat → Nat → Nat → List CacheEntry
  | [], k, v, f => [{ key := k, resource := some v, freshness := f }]
  | e :: es, k, v, f =>
    if e.key = k then { key := k, resource := some v, freshness := f } :: es
    else e :: cacheInsert es k v f

/-- The miss path of get_or_create (source lines 99-122): a failing
factory propagates its error with no state change; otherwise, when
open_resources is below capacity it is incremented, else the open
entry with minimal freshness is closed (panic when no entry is open:
the unwrap of line 108); finally the key is inserted open with
freshness equal to the post-incremented access counter's old value. -/
def getOrCreateMiss (s : CacheState) (k : Nat) (factory : Option Nat) :
    CacheOutcome × CacheState :=
  match factory with
  | none => (.err, s)
  | some v =>
    if s.openResources < s.capacity then
      (.ok v, { s with
                  openResources := s.openResources + 1
                  entries := cacheInsert s.entries k v s.accessCounter
                  accessCounter := s.accessCounter + 1 })
    else
      match cacheMinFresh s.entries with
      | none => (.panicked, s)
      | some m =>
        (.ok v, { s with
                    entries := cacheInsert (closeFirstMinOpen s.entries m) k v s.accessCounter
                    accessCounter := s.accessCounter + 1 })

/-- Source: SyncResourceCache::get_or_create, src/utils/
sync_resource_cache.rs lines 78-123, sequential semantics: the read
probe (lines 82-90) returns an open resource immediately WITHOUT
touching its freshness; otherwise the write path runs, whose double
check matches the read probe in a sequential run, so execution
proceeds to the miss path. -/
def getOrCreate (s : CacheState) (k : Nat) (factory : Option Nat) :
    CacheOutcome × CacheState :=
  match cacheLookup s.entries k with
  | some e =>
    match e.resource with
    | some r => (.ok r, s)
    | none => getOrCreateMiss s k factory
  | none => getOrCreateMiss s k factory

/-- A sequence of get_or_create calls from a state. -/
def cacheRun (ops : List (Nat × Option Nat)) (s : CacheState) : CacheState :=
  ops.foldl (fun st op => (getOrCreate st op.1 op.2).2) s

/-- The number of open entries (entries with resource Some), the
quantity len_open reports through the open_resources counter. -/
def cacheOpenCount (entries : List CacheEntry) : Nat :=
  (entries.filter (fun e => e.resource.isSome)).length

/-! ## FileManager error propagation

Source: src/file_management/file_manager.rs. Only the control flow on
the get_file outcome matters to the panic claims: the model takes the
result of get_file (an error context string, or the byte length of the
opened file) as a parameter. A none result is a panic. -/

/-- Source: FileManager::read, src/file_management/file_manager.rs
lines 147-161: the get_file error propagates with the question mark
operator, the success path reads bytes into the page and returns
Ok. -/
def fileManagerRead (getFileResult : Except String Nat) : Option (Except String Unit) :=
  match getFileResult with
  | .error e => some (.error e)
  | .ok _ => some (.ok ())

/-- Source: FileManager::block_length, src/file_management/
file_manager.rs lines 185-193: get_file is followed by UNWRAP, so a
get_file error panics (none); on success _block_length seeks to the
end and returns the file length divided by the block size. -/
def fileManagerBlockLength (getFileResult : Except String Nat) (blockSize : Nat) :
    Option (Except String Nat) :=
  match getFileResult with
  | .error _ => none
  | .ok fileLen => some (.ok (fileLen / blockSize))

/-- Source: FileManager::append, src/file_management/file_manager.rs
lines 200-217: get_file is followed by UNWRAP, so a get_file error
panics (none); on success the new block number is the file length
divided by the block size. -/
def fileManagerAppend (getFileResult : Except String Nat) (blockSize : Nat) :
    Option (Except String Nat) :=
  match getFileResult with
  | .error _ => none
  | .ok fileLen => some (.ok (fileLen / blockSize))

/-! ## Byte primitive lemmas -/

theorem beBytes_length (n v : Nat) : (beBytes n v).length = n := by
  induction n generalizing v with
  | zero => rfl
  | succ n ih => simp [beBytes, ih]

theorem leBytes_length (n v : Nat) : (leBytes n v).length = n := by
  induction n generalizing v with
  | zero => rfl
  | succ n ih => simp [leBytes, ih]

theorem foldlBE (bs : List Nat) (acc : Nat) :
    bs.foldl (fun a b => a * 256 + b) acc = acc * 256 ^ bs.length + fromBEBytes bs := by
  induction bs generalizing acc with
  | nil => simp [fromBEBytes]
  | cons b bs ih =>
    simp only [List.foldl_cons, fromBEBytes, List.length_cons]
    rw [ih (acc * 256 + b), ih (0 * 256 + b)]
    ring

theorem fromBEBytes_cons (b : Nat) (bs : List Nat) :
    fromBEBytes (b :: bs) = b * 256 ^ bs.length + fromBEBytes bs := by
  simp only [fromBEBytes, List.foldl_cons]
  rw [foldlBE bs (0 * 256 + b)]
  norm_num
  rfl

theorem fromBEBytes_append (as bs : List Nat) :
    fromBEBytes (as ++ bs) = fromBEBytes as * 256 ^ bs.length + fromBEBytes bs := by
  simp only [fromBEBytes, List.foldl_append]
  rw [foldlBE]
  rfl

theorem beBytes_split (m n v : Nat) :
    beBytes (m + n) v = beBytes m (v / 256 ^ n) ++ beBytes n v := by
  induction n generalizing v with
  | zero => simp [beBytes]
  | succ n ih =>
    show beBytes (m + n) (v / 256) ++ [v % 256] = _
    rw [ih]
    have h1 : v / 256 / 256 ^ n = v / 256 ^ (n + 1) := by
      rw [Nat.div_div_eq_div_mul, pow_succ, mul_comm (256 ^ n) 256]
    rw [h1, List.append_assoc]
    rfl

theorem beBytes_succ (n v : Nat) :
    beBytes (n + 1) v = (v / 256 ^ n % 256) :: beBytes n v := by
  have h := beBytes_split 1 n v
  have h2 : 1 + n = n + 1 := by omega
  rw [h2] at h
  rw [h]
  rfl

theorem fromBEBytes_beBytes (n v : Nat) : fromBEBytes (beBytes n v) = v % 256 ^ n := by
  induction n generalizing v with
  | zero => simp [beBytes, fromBEBytes, Nat.mod_one]
  | succ n ih =>
    rw [beBytes_succ, fromBEBytes_cons, beBytes_length, ih]
    rw [@Nat.mod_pow_succ v 256 n]
    ring

theorem beBytes_drop8 (L v : Nat) (hL : L ≤ 8) :
    (beBytes 8 v).drop (8 - L) = beBytes L v := by
  have h8 : beBytes 8 v = beBytes ((8 - L) + L) v := by
    congr 1
    omega
  rw [h8, beBytes_split]
  exact List.drop_left' (beBytes_length _ _)

theorem lor_high (k c x : Nat) (hx : x < 2 ^ k) (hc : c % 2 ^ k = 0) :
    c ||| x = c + x := by
  have hd : 2 ^ k ∣ c := Nat.dvd_of_mod_eq_zero hc
  have h1 : 2 ^ k * (c / 2 ^ k) = c := Nat.mul_div_cancel' hd
  rw [← h1]
  exact (Nat.mul_add_lt_is_or hx (c / 2 ^ k)).symm

theorem land_ones (x k : Nat) : x &&& (2 ^ k - 1) = x % 2 ^ k :=
  Nat.and_pow_two_sub_one_eq_mod x k

theorem land_low_ones (k x c : Nat) (hx : x < 2 ^ k) (hc : c % 2 ^ k = 2 ^ k - 1) :
    x &&& c = x := by
  have h1 : x &&& (2 ^ k - 1) = x := by rw [land_ones, Nat.mod_eq_of_lt hx]
  calc x &&& c = (x &&& (2 ^ k - 1)) &&& c := by rw [h1]
  _ = x &&& ((2 ^ k - 1) &&& c) := Nat.land_assoc _ _ _
  _ = x &&& (c &&& (2 ^ k - 1)) := by rw [Nat.land_comm (2 ^ k - 1) c]
  _ = x &&& (c % 2 ^ k) := by rw [land_ones]
  _ = x &&& (2 ^ k - 1) := by rw [hc]
  _ = x := h1

/-! ## Varlength roundtrip, branch by branch -/

theorem vlBranch1 (v : Nat) (hhi : v < 2 ^ 7) (extra : List Nat) :
    varlengthDeserialize (varlengthSerialize v ++ extra) = v := by
  have hlen : varlengthSerializedLength v = 1 := by
    unfold varlengthSerializedLength
    rw [if_pos (by omega)]
  unfold varlengthSerialize
  rw [hlen]
  norm_num
  rw [beBytes_drop8 1 v (by norm_num), beBytes_succ 0 v]
  simp only [List.modifyHead_cons, varlengthOrMask, pow_zero, Nat.div_one, Nat.or_zero]
  have hmod : v % 256 = v := by omega
  rw [hmod]
  show varlengthDeserialize (v :: (beBytes 0 v ++ extra)) = v
  simp only [varlengthDeserialize]
  rw [if_pos (by omega)]

theorem vlBranch2 (v : Nat) (hlo : 2 ^ 7 ≤ v) (hhi : v < 2 ^ 14) (extra : List Nat) :
    varlengthDeserialize (varlengthSerialize v ++ extra) = v := by
  have hlen : varlengthSerializedLength v = 2 := by
    unfold varlengthSerializedLength
    rw [if_neg (by push_neg; omega), if_pos (by omega)]
  unfold varlengthSerialize
  rw [hlen]
  norm_num
  rw [beBytes_drop8 2 v (by norm_num), beBytes_succ 1 v]
  simp only [List.modifyHead_cons, varlengthOrMask, pow_one]
  have hmod : v / 256 % 256 = v / 256 := by omega
  rw [hmod, Nat.lor_comm, lor_high 6 128 (v / 256) (by omega) (by norm_num)]
  rw [List.cons_append]
  simp only [varlengthDeserialize]
  rw [if_neg (by push_neg; omega), if_pos (by omega)]
  rw [List.take_left' (beBytes_length 1 v)]
  have hand : (128 + v / 256) &&& 63 = v / 256 := by
    have h63 : (63 : Nat) = 2 ^ 6 - 1 := by norm_num
    rw [h63, land_ones]
    omega
  rw [hand, fromBEBytes_cons, fromBEBytes_beBytes]
  simp only [beBytes_length, pow_one]
  omega

theorem vlBranch3 (v : Nat) (hlo : 2 ^ 14 ≤ v) (hhi : v < 2 ^ 21) (extra : List Nat) :
    varlengthDeserialize (varlengthSerialize v ++ extra) = v := by
  have hlen : varlengthSerializedLength v = 3 := by
    unfold varlengthSerializedLength
    rw [if_neg (by push_neg; omega), if_neg (by push_neg; omega), if_pos (by omega)]
  unfold varlengthSerialize
  rw [hlen]
  norm_num
  rw [beBytes_drop8 3 v (by norm_num), beBytes_succ 2 v]
  simp only [List.modifyHead_cons, varlengthOrMask]
  have hp : (256 : Nat) ^ 2 = 65536 := by norm_num
  rw [hp]
  have hmod : v / 65536 % 256 = v / 65536 := by omega
  rw [hmod, Nat.lor_comm, lor_high 5 192 (v / 65536) (by omega) (by norm_num)]
  rw [List.cons_append]
  simp only [varlengthDeserialize]
  rw [if_neg (by push_neg; omega), if_neg (by push_neg; omega), if_pos (by omega)]
  rw [List.take_left' (beBytes_length 2 v)]
  have hand : (192 + v / 65536) &&& 31 = v / 65536 := by
    have h31 : (31 : Nat) = 2 ^ 5 - 1 := by norm_num
    rw [h31, land_ones]
    omega
  rw [hand, fromBEBytes_cons, fromBEBytes_beBytes, beBytes_length, hp]
  omega

theorem vlBranch4 (v : Nat) (hlo : 2 ^ 21 ≤ v) (hhi : v < 2 ^ 28) (extra : List Nat) :
    varlengthDeserialize (varlengthSerialize v ++ extra) = v := by
  have hlen : varlengthSerializedLength v = 4 := by
    unfold varlengthSerializedLength
    rw [if_neg (by push_neg; omega), if_neg (by push_neg; omega), if_neg (by push_neg; omega), if_pos (by omega)]
  unfold varlengthSerialize
  rw [hlen]
  norm_num
  rw [beBytes_drop8 4 v (by norm_num), beBytes_succ 3 v]
  simp only [List.modifyHead_cons, varlengthOrMask]
  have hp : (256 : Nat) ^ 3 = 16777216 := by norm_num
  rw [hp]
  have hmod : v / 16777216 % 256 = v / 16777216 := by omega
  rw [hmod, Nat.lor_comm, lor_high 4 224 (v / 16777216) (by omega) (by norm_num)]
  rw [List.cons_append]
  simp only [varlengthDeserialize]
  rw [if_neg (by push_neg; omega), if_neg (by push_neg; omega), if_neg (by push_neg; omega), if_pos (by omega)]
  rw [List.take_left' (beBytes_length 3 v)]
  have hand : (224 + v / 16777216) &&& 15 = v / 16777216 := by
    have h15 : (15 : Nat) = 2 ^ 4 - 1 := by norm_num
    rw [h15, land_ones]
    omega
  rw [hand, fromBEBytes_cons, fromBEBytes_beBytes, beBytes_length, hp]
  omega

theorem vlBranch5 (v : Nat) (hlo : 2 ^ 28 ≤ v) (hhi : v < 2 ^ 35) (extra : List Nat) :
    varlengthDeserialize (varlengthSerialize v ++ extra) = v := by
  have hlen : varlengthSerializedLength v = 5 := by
    unfold varlengthSerializedLength
    rw [if_neg (by push_neg; omega), if_neg (by push_neg; omega), if_neg (by push_neg; omega), if_neg (by push_neg; omega),
      if_pos (by omega)]
  unfold varlengthSerialize
  rw [hlen]
  norm_num
  rw [beBytes_drop8 5 v (by norm_num), beBytes_succ 4 v]
  simp only [List.modifyHead_cons, varlengthOrMask]
  have hp : (256 : Nat) ^ 4 = 4294967296 := by norm_num
  rw [hp]
  have hmod : v / 4294967296 % 256 = v / 4294967296 := by omega
  rw [hmod, Nat.lor_comm, lor_high 3 240 (v / 4294967296) (by omega) (by norm_num)]
  rw [List.cons_append]
  simp only [varlengthDeserialize]
  rw [if_neg (by push_neg; omega), if_neg (by push_neg; omega), if_neg (by push_neg; omega), if_neg (by push_neg; omega),
    if_pos (by omega)]
  rw [List.take_left' (beBytes_length 4 v)]
  have hand : (240 + v / 4294967296) &&& 7 = v / 4294967296 := by
    have h7 : (7 : Nat) = 2 ^ 3 - 1 := by norm_num
    rw [h7, land_ones]
    omega
  rw [hand, fromBEBytes_cons, fromBEBytes_beBytes, beBytes_length, hp]
  omega

theorem vlBranch6 (v : Nat) (hlo : 2 ^ 35 ≤ v) (hhi : v < 2 ^ 42) (extra : List Nat) :
    varlengthDeserialize (varlengthSerialize v ++ extra) = v := by
  have hlen : varlengthSerializedLength v = 6 := by
    unfold varlengthSerializedLength
    rw [if_neg (by push_neg; omega), if_neg (by push_neg; omega), if_neg (by push_neg; omega), if_neg (by push_neg; omega),
      if_neg (by push_neg; omega), if_pos (by omega)]
  unfold varlengthSerialize
  rw [hlen]
  norm_num
  rw [beBytes_drop8 6 v (by norm_num), beBytes_succ 5 v]
  simp only [List.modifyHead_cons, varlengthOrMask]
  have hp : (256 : Nat) ^ 5 = 1099511627776 := by norm_num
  rw [hp]
  have hmod : v / 1099511627776 % 256 = v / 1099511627776 := by omega
  rw [hmod, Nat.lor_comm, lor_high 2 248 (v / 1099511627776) (by omega) (by norm_num)]
  rw [List.cons_append]
  simp only [varlengthDeserialize]
  rw [if_neg (by push_neg; omega), if_neg (by push_neg; omega), if_neg (by push_neg; omega), if_neg (by push_neg; omega),
    if_neg (by push_neg; omega), if_pos (by omega)]
  rw [List.take_left' (beBytes_length 5 v)]
  have hand : (248 + v / 1099511627776) &&& 3 = v / 1099511627776 := by
    have h3 : (3 : Nat) = 2 ^ 2 - 1 := by norm_num
    rw [h3, land_ones]
    omega
  rw [hand, fromBEBytes_cons, fromBEBytes_beBytes, beBytes_length, hp]
  omega

theorem vlBranch7 (v : Nat) (hlo : 2 ^ 42 ≤ v) (hhi : v < 2 ^ 49) (extra : List Nat) :
    varlengthDeserialize (varlengthSerialize v ++ extra) = v := by
  have hlen : varlengthSerializedLength v = 7 := by
    unfold varlengthSerializedLength
    rw [if_neg (by push_neg; omega), if_neg (by push_neg; omega), if_neg (by push_neg; omega), if_neg (by push_neg; omega),
      if_neg (by push_neg; omega), if_neg (by push_neg; omega), if_pos (by omega)]
  unfold varlengthSerialize
  rw [hlen]
  rw [if_pos (by norm_num)]
  rw [beBytes_drop8 7 v (by norm_num), beBytes_succ 6 v]
  simp only [List.modifyHead_cons, varlengthOrMask]
  have hp : (256 : Nat) ^ 6 = 281474976710656 := by norm_num
  rw [hp]
  have hmod : v / 281474976710656 % 256 = v / 281474976710656 := by omega
  rw [hmod, Nat.lor_comm, lor_high 1 252 (v / 281474976710656) (by omega) (by norm_num)]
  rw [List.cons_append]
  simp only [varlengthDeserialize]
  rw [if_neg (by push_neg; omega), if_neg (by push_neg; omega), if_neg (by push_neg; omega), if_neg (by push_neg; omega),
    if_neg (by push_neg; omega), if_neg (by push_neg; omega), if_pos (by omega)]
  rw [List.take_left' (beBytes_length 6 v)]
  have hand : (252 + v / 281474976710656) &&& 1 = v / 281474976710656 := by
    have h1 : (1 : Nat) = 2 ^ 1 - 1 := by norm_num
    rw [h1, land_ones]
    omega
  rw [hand, fromBEBytes_cons, fromBEBytes_beBytes, beBytes_length, hp]
  omega

theorem vlBranch8 (v : Nat) (hlo : 2 ^ 49 ≤ v) (hhi : v < 2 ^ 56) (extra : List Nat) :
    varlengthDeserialize (varlengthSerialize v ++ extra) = v := by
  have hlen : varlengthSerializedLength v = 8 := by
    unfold varlengthSerializedLength
    rw [if_neg (by push_neg; omega), if_neg (by push_neg; omega), if_neg (by push_neg; omega), if_neg (by push_neg; omega),
      if_neg (by push_neg; omega), if_neg (by push_neg; omega), if_neg (by push_neg; omega), if_pos (by omega)]
  unfold varlengthSerialize
  rw [hlen]
  rw [if_pos (by norm_num)]
  rw [beBytes_drop8 8 v (by norm_num), beBytes_succ 7 v]
  simp only [List.modifyHead_cons, varlengthOrMask]
  have hp : (256 : Nat) ^ 7 = 72057594037927936 := by norm_num
  rw [hp]
  have hdiv : v / 72057594037927936 = 0 := by omega
  rw [hdiv]
  norm_num
  simp only [varlengthDeserialize]
  rw [if_neg (by push_neg; omega), if_neg (by push_neg; omega), if_neg (by push_neg; omega), if_neg (by push_neg; omega),
    if_neg (by push_neg; omega), if_neg (by push_neg; omega), if_neg (by push_neg; omega), if_pos (by omega)]
  rw [List.take_left' (beBytes_length 7 v)]
  rw [fromBEBytes_beBytes, hp]
  omega

theorem vlBranch9 (v : Nat) (hlo : 2 ^ 56 ≤ v) (hhi : v < 2 ^ 64) (extra : List Nat) :
    varlengthDeserialize (varlengthSerialize v ++ extra) = v := by
  have hlen : varlengthSerializedLength v = 9 := by
    unfold varlengthSerializedLength
    rw [if_neg (by push_neg; omega), if_neg (by push_neg; omega), if_neg (by push_neg; omega), if_neg (by push_neg; omega),
      if_neg (by push_neg; omega), if_neg (by push_neg; omega), if_neg (by push_neg; omega), if_neg (by push_neg; omega)]
  unfold varlengthSerialize
  rw [hlen]
  rw [if_neg (by norm_num)]
  rw [List.cons_append]
  simp only [varlengthDeserialize]
  rw [if_neg (by push_neg; omega), if_neg (by push_neg; omega), if_neg (by push_neg; omega), if_neg (by push_neg; omega),
    if_neg (by push_neg; omega), if_neg (by push_neg; omega), if_neg (by push_neg; omega), if_neg (by push_neg; omega)]
  rw [List.take_left' (beBytes_length 8 v)]
  rw [fromBEBytes_beBytes]
  have hp : (256 : Nat) ^ 8 = 18446744073709551616 := by norm_num
  rw [hp]
  omega

/-- Varlength deserialize inverts serialize, for every representable
value and with any trailing bytes after the serialized ones. -/
theorem varlength_roundtrip (v : Nat) (hv : v < 2 ^ 64) (extra : List Nat) :
    varlengthDeserialize (varlengthSerialize v ++ extra) = v := by
  by_cases h1 : v < 2 ^ 7
  · exact vlBranch1 v h1 extra
  by_cases h2 : v < 2 ^ 14
  · exact vlBranch2 v (by omega) h2 extra
  by_cases h3 : v < 2 ^ 21
  · exact vlBranch3 v (by omega) h3 extra
  by_cases h4 : v < 2 ^ 28
  · exact vlBranch4 v (by omega) h4 extra
  by_cases h5 : v < 2 ^ 35
  · exact vlBranch5 v (by omega) h5 extra
  by_cases h6 : v < 2 ^ 42
  · exact vlBranch6 v (by omega) h6 extra
  by_cases h7 : v < 2 ^ 49
  · exact vlBranch7 v (by omega) h7 extra
  by_cases h8 : v < 2 ^ 56
  · exact vlBranch8 v (by omega) h8 extra
  exact vlBranch9 v (by omega) hv extra

theorem varlengthSerializedLength_bounds (v : Nat) :
    1 ≤ varlengthSerializedLength v ∧ varlengthSerializedLength v ≤ 9 := by
  unfold varlengthSerializedLength
  split_ifs <;> omega

/-- Varlength serialize writes exactly serialized_length bytes. -/
theorem varlengthSerialize_length (v : Nat) :
    (varlengthSerialize v).length = varlengthSerializedLength v := by
  have hb := varlengthSerializedLength_bounds v
  unfold varlengthSerialize
  by_cases h : varlengthSerializedLength v ≤ 8
  · rw [if_pos h, List.length_modifyHead, List.length_drop, beBytes_length]
    omega
  · rw [if_neg h]
    simp [beBytes_length]
    omega

/-! ## Varint roundtrip, branch by branch -/

theorem fromBEBytes_replicate_zero (k : Nat) (bs : List Nat) :
    fromBEBytes (List.replicate k 0 ++ bs) = fromBEBytes bs := by
  rw [fromBEBytes_append]
  have h0 : fromBEBytes (List.replicate k 0) = 0 := by
    induction k with
    | zero => rfl
    | succ k ih =>
      rw [List.replicate_succ, fromBEBytes_cons, ih]
      ring
  rw [h0]
  ring

theorem twosComp64_of_nonneg (v : Int) (h0 : 0 ≤ v) (h1 : v < 2 ^ 64) :
    (twosComp64 v : Int) = v := by
  unfold twosComp64
  have hm : v % (2 : Int) ^ 64 = v := by omega
  rw [hm, Int.toNat_of_nonneg h0]

theorem twosComp64_of_neg (v : Int) (h0 : -(2 ^ 63) ≤ v) (h1 : v < 0) :
    (twosComp64 v : Int) = v + 2 ^ 64 := by
  unfold twosComp64
  have hm : v % (2 : Int) ^ 64 = v + 2 ^ 64 := by omega
  rw [hm, Int.toNat_of_nonneg (by omega)]

theorem viBranch1 (v : Int) (hlo : 0 ≤ v) (hhi : v < 2 ^ 6) (extra : List Nat) :
    varintDeserialize (varintSerialize v ++ extra) = v := by
  have hlen : varintSerializedLength v = 1 := by
    unfold varintSerializedLength
    rw [if_pos (by omega)]
  have hn : (twosComp64 v : Int) = v := twosComp64_of_nonneg v (by omega) (by omega)
  set n := twosComp64 v with hndef
  unfold varintSerialize
  rw [hlen]
  rw [if_pos (by norm_num)]
  rw [← hndef]
  rw [beBytes_drop8 1 n (by norm_num), beBytes_succ 0 n]
  simp only [List.modifyHead_cons, varintMarkByte, pow_zero, Nat.div_one]
  have hmod : n % 256 = n := by omega
  rw [hmod]
  have hand1 : n &&& 127 = n := land_low_ones 6 _ 127 (by omega) (by norm_num)
  rw [hand1]
  rw [List.cons_append]
  simp only [varintDeserialize]
  rw [if_pos (by omega)]
  simp only [varintDecodeBranch]
  have hshift : (128 : Nat) >>> 1 = 64 := by decide
  rw [hshift]
  have hbit : n &&& 64 = 0 := by
    have h64 : (64 : Nat) = 2 ^ 6 := by norm_num
    rw [h64, Nat.and_two_pow, Nat.testBit_to_div_mod]
    have hz : n / 2 ^ 6 % 2 = 0 := by omega
    rw [hz]
    simp
  rw [hbit]
  simp only [lt_self_iff_false, if_false]
  simp only [varintFillAndMask]
  rw [hand1]
  norm_num
  rw [fromBEBytes_replicate_zero, fromBEBytes_cons]
  simp only [List.length_nil, pow_zero, fromBEBytes, List.foldl_nil, mul_one, Nat.add_zero]
  unfold toI64
  rw [if_pos (by omega)]
  omega

theorem viBranch2 (v : Int) (hlo : 2 ^ 6 ≤ v) (hhi : v < 2 ^ 13) (extra : List Nat) :
    varintDeserialize (varintSerialize v ++ extra) = v := by
  have hlen : varintSerializedLength v = 2 := by
    unfold varintSerializedLength
    rw [if_neg (by push_neg; omega), if_pos (by omega)]
  have hn : (twosComp64 v : Int) = v := twosComp64_of_nonneg v (by omega) (by omega)
  set n := twosComp64 v with hndef
  unfold varintSerialize
  rw [hlen]
  rw [if_pos (by norm_num)]
  rw [← hndef]
  rw [beBytes_drop8 2 n (by norm_num), beBytes_succ 1 n]
  simp only [List.modifyHead_cons, varintMarkByte, pow_one]
  have hmod : n / 256 % 256 = n / 256 := by omega
  rw [hmod]
  have hand1 : n / 256 &&& 191 = n / 256 := land_low_ones 5 _ 191 (by omega) (by norm_num)
  rw [hand1, Nat.lor_comm, lor_high 5 128 (n / 256) (by omega) (by norm_num)]
  rw [List.cons_append]
  simp only [varintDeserialize]
  rw [if_neg (by push_neg; omega), if_pos (by omega)]
  simp only [varintDecodeBranch]
  have hshift : (128 : Nat) >>> 2 = 32 := by decide
  rw [hshift]
  have hbit : (128 + n / 256) &&& 32 = 0 := by
    have h32 : (32 : Nat) = 2 ^ 5 := by norm_num
    rw [h32, Nat.and_two_pow, Nat.testBit_to_div_mod]
    have hz : (128 + n / 256) / 2 ^ 5 % 2 = 0 := by omega
    rw [hz]
    simp
  rw [hbit]
  simp only [lt_self_iff_false, if_false]
  simp only [varintFillAndMask]
  have hand2 : (128 + n / 256) &&& 63 = n / 256 := by
    have h63 : (63 : Nat) = 2 ^ 6 - 1 := by norm_num
    rw [h63, land_ones]
    omega
  rw [hand2]
  rw [List.take_left' (beBytes_length 1 n)]
  rw [fromBEBytes_replicate_zero, fromBEBytes_cons, fromBEBytes_beBytes, beBytes_length]
  have hval : n / 256 * 256 ^ 1 + n % 256 ^ 1 = n := by
    simp only [pow_one]
    omega
  rw [hval]
  unfold toI64
  rw [if_pos (by omega)]
  omega

theorem viBranch3 (v : Int) (hlo : 2 ^ 13 ≤ v) (hhi : v < 2 ^ 20) (extra : List Nat) :
    varintDeserialize (varintSerialize v ++ extra) = v := by
  have hlen : varintSerializedLength v = 3 := by
    unfold varintSerializedLength
    rw [if_neg (by push_neg; omega), if_neg (by push_neg; omega), if_pos (by omega)]
  have hn : (twosComp64 v : Int) = v := twosComp64_of_nonneg v (by omega) (by omega)
  set n := twosComp64 v with hndef
  unfold varintSerialize
  rw [hlen]
  rw [if_pos (by norm_num)]
  rw [← hndef]
  rw [beBytes_drop8 3 n (by norm_num), beBytes_succ 2 n]
  simp only [List.modifyHead_cons, varintMarkByte]
  have hp : (256 : Nat) ^ 2 = 65536 := by norm_num
  rw [hp]
  have hmod : n / 65536 % 256 = n / 65536 := by omega
  rw [hmod]
  have hand1 : n / 65536 &&& 223 = n / 65536 := land_low_ones 4 _ 223 (by omega) (by norm_num)
  rw [hand1, Nat.lor_comm, lor_high 4 192 (n / 65536) (by omega) (by norm_num)]
  rw [List.cons_append]
  simp only [varintDeserialize]
  rw [if_neg (by push_neg; omega), if_neg (by push_neg; omega), if_pos (by omega)]
  simp only [varintDecodeBranch]
  have hshift : (128 : Nat) >>> 3 = 16 := by decide
  rw [hshift]
  have hbit : (192 + n / 65536) &&& 16 = 0 := by
    have h16 : (16 : Nat) = 2 ^ 4 := by norm_num
    rw [h16, Nat.and_two_pow, Nat.testBit_to_div_mod]
    have hz : (192 + n / 65536) / 2 ^ 4 % 2 = 0 := by omega
    rw [hz]
    simp
  rw [hbit]
  simp only [lt_self_iff_false, if_false]
  simp only [varintFillAndMask]
  have hand2 : (192 + n / 65536) &&& 31 = n / 65536 := by
    have h31 : (31 : Nat) = 2 ^ 5 - 1 := by norm_num
    rw [h31, land_ones]
    omega
  rw [hand2]
  rw [List.take_left' (beBytes_length 2 n)]
  rw [fromBEBytes_replicate_zero, fromBEBytes_cons, fromBEBytes_beBytes, beBytes_length, hp]
  have hval : n / 65536 * 65536 + n % 65536 = n := by omega
  rw [hval]
  unfold toI64
  rw [if_pos (by omega)]
  omega

theorem viBranch4 (v : Int) (hlo : 2 ^ 20 ≤ v) (hhi : v < 2 ^ 27) (extra : List Nat) :
    varintDeserialize (varintSerialize v ++ extra) = v := by
  have hlen : varintSerializedLength v = 4 := by
    unfold varintSerializedLength
    rw [if_neg (by push_neg; omega), if_neg (by push_neg; omega), if_neg (by push_neg; omega), if_pos (by omega)]
  have hn : (twosComp64 v : Int) = v := twosComp64_of_nonneg v (by omega) (by omega)
  set n := twosComp64 v with hndef
  unfold varintSerialize
  rw [hlen]
  rw [if_pos (by norm_num)]
  rw [← hndef]
  rw [beBytes_drop8 4 n (by norm_num), beBytes_succ 3 n]
  simp only [List.modifyHead_cons, varintMarkByte]
  have hp : (256 : Nat) ^ 3 = 16777216 := by norm_num
  rw [hp]
  have hmod : n / 16777216 % 256 = n / 16777216 := by omega
  rw [hmod]
  have hand1 : n / 16777216 &&& 239 = n / 16777216 :=
    land_low_ones 3 _ 239 (by omega) (by norm_num)
  rw [hand1, Nat.lor_comm, lor_high 3 224 (n / 16777216) (by omega) (by norm_num)]
  rw [List.cons_append]
  simp only [varintDeserialize]
  rw [if_neg (by push_neg; omega), if_neg (by push_neg; omega), if_neg (by push_neg; omega), if_pos (by omega)]
  simp only [varintDecodeBranch]
  have hshift : (128 : Nat) >>> 4 = 8 := by decide
  rw [hshift]
  have hbit : (224 + n / 16777216) &&& 8 = 0 := by
    have h8 : (8 : Nat) = 2 ^ 3 := by norm_num
    rw [h8, Nat.and_two_pow, Nat.testBit_to_div_mod]
    have hz : (224 + n / 16777216) / 2 ^ 3 % 2 = 0 := by omega
    rw [hz]
    simp
  rw [hbit]
  simp only [lt_self_iff_false, if_false]
  simp only [varintFillAndMask]
  have hand2 : (224 + n / 16777216) &&& 15 = n / 16777216 := by
    have h15 : (15 : Nat) = 2 ^ 4 - 1 := by norm_num
    rw [h15, land_ones]
    omega
  rw [hand2]
  rw [List.take_left' (beBytes_length 3 n)]
  rw [fromBEBytes_replicate_zero, fromBEBytes_cons, fromBEBytes_beBytes, beBytes_length, hp]
  have hval : n / 16777216 * 16777216 + n % 16777216 = n := by omega
  rw [hval]
  unfold toI64
  rw [if_pos (by omega)]
  omega

theorem viBranch5 (v : Int) (hlo : 2 ^ 27 ≤ v) (hhi : v < 2 ^ 34) (extra : List Nat) :
    varintDeserialize (varintSerialize v ++ extra) = v := by
  have hlen : varintSerializedLength v = 5 := by
    unfold varintSerializedLength
    rw [if_neg (by push_neg; omega), if_neg (by push_neg; omega), if_neg (by push_neg; omega), if_neg (by push_neg; omega),
      if_pos (by omega)]
  have hn : (twosComp64 v : Int) = v := twosComp64_of_nonneg v (by omega) (by omega)
  set n := twosComp64 v with hndef
  unfold varintSerialize
  rw [hlen]
  rw [if_pos (by norm_num)]
  rw [← hndef]
  rw [beBytes_drop8 5 n (by norm_num), beBytes_succ 4 n]
  simp only [List.modifyHead_cons, varintMarkByte]
  have hp : (256 : Nat) ^ 4 = 4294967296 := by norm_num
  rw [hp]
  have hmod : n / 4294967296 % 256 = n / 4294967296 := by omega
  rw [hmod]
  have hand1 : n / 4294967296 &&& 247 = n / 4294967296 :=
    land_low_ones 2 _ 247 (by omega) (by norm_num)
  rw [hand1, Nat.lor_comm, lor_high 2 240 (n / 4294967296) (by omega) (by norm_num)]
  rw [List.cons_append]
  simp only [varintDeserialize]
  rw [if_neg (by push_neg; omega), if_neg (by push_neg; omega), if_neg (by push_neg; omega), if_neg (by push_neg; omega),
    if_pos (by omega)]
  simp only [varintDecodeBranch]
  have hshift : (128 : Nat) >>> 5 = 4 := by decide
  rw [hshift]
  have hbit : (240 + n / 4294967296) &&& 4 = 0 := by
    have h4 : (4 : Nat) = 2 ^ 2 := by norm_num
    rw [h4, Nat.and_two_pow, Nat.testBit_to_div_mod]
    have hz : (240 + n / 4294967296) / 2 ^ 2 % 2 = 0 := by omega
    rw [hz]
    simp
  rw [hbit]
  simp only [lt_self_iff_false, if_false]
  simp only [varintFillAndMask]
  have hand2 : (240 + n / 4294967296) &&& 7 = n / 4294967296 := by
    have h7 : (7 : Nat) = 2 ^ 3 - 1 := by norm_num
    rw [h7, land_ones]
    omega
  rw [hand2]
  rw [List.take_left' (beBytes_length 4 n)]
  rw [fromBEBytes_replicate_zero, fromBEBytes_cons, fromBEBytes_beBytes, beBytes_length, hp]
  have hval : n / 4294967296 * 4294967296 + n % 4294967296 = n := by omega
  rw [hval]
  unfold toI64
  rw [if_pos (by omega)]
  omega

theorem viBranch6 (v : Int) (hlo : 2 ^ 34 ≤ v) (hhi : v < 2 ^ 41) (extra : List Nat) :
    varintDeserialize (varintSerialize v ++ extra) = v := by
  have hlen : varintSerializedLength v = 6 := by
    unfold varintSerializedLength
    rw [if_neg (by push_neg; omega), if_neg (by push_neg; omega), if_neg (by push_neg; omega), if_neg (by push_neg; omega),
      if_neg (by push_neg; omega), if_pos (by omega)]
  have hn : (twosComp64 v : Int) = v := twosComp64_of_nonneg v (by omega) (by omega)
  set n := twosComp64 v with hndef
  unfold varintSerialize
  rw [hlen]
  rw [if_pos (by norm_num)]
  rw [← hndef]
  rw [beBytes_drop8 6 n (by norm_num), beBytes_succ 5 n]
  simp only [List.modifyHead_cons, varintMarkByte]
  have hp : (256 : Nat) ^ 5 = 1099511627776 := by norm_num
  rw [hp]
  have hmod : n / 1099511627776 % 256 = n / 1099511627776 := by omega
  rw [hmod]
  have hand1 : n / 1099511627776 &&& 251 = n / 1099511627776 :=
    land_low_ones 1 _ 251 (by omega) (by norm_num)
  rw [hand1, Nat.lor_comm, lor_high 1 248 (n / 1099511627776) (by omega) (by norm_num)]
  rw [List.cons_append]
  simp only [varintDeserialize]
  rw [if_neg (by push_neg; omega), if_neg (by push_neg; omega), if_neg (by push_neg; omega), if_neg (by push_neg; omega),
    if_neg (by push_neg; omega), if_pos (by omega)]
  simp only [varintDecodeBranch]
  have hshift : (128 : Nat) >>> 6 = 2 := by decide
  rw [hshift]
  have hbit : (248 + n / 1099511627776) &&& 2 = 0 := by
    have h2 : (2 : Nat) = 2 ^ 1 := by norm_num
    rw [h2, Nat.and_two_pow, Nat.testBit_to_div_mod]
    have hz : (248 + n / 1099511627776) / 2 ^ 1 % 2 = 0 := by omega
    rw [hz]
    simp
  rw [hbit]
  simp only [lt_self_iff_false, if_false]
  simp only [varintFillAndMask]
  have hand2 : (248 + n / 1099511627776) &&& 3 = n / 1099511627776 := by
    have h3 : (3 : Nat) = 2 ^ 2 - 1 := by norm_num
    rw [h3, land_ones]
    omega
  rw [hand2]
  rw [List.take_left' (beBytes_length 5 n)]
  rw [fromBEBytes_replicate_zero, fromBEBytes_cons, fromBEBytes_beBytes, beBytes_length, hp]
  have hval : n / 1099511627776 * 1099511627776 + n % 1099511627776 = n := by omega
  rw [hval]
  unfold toI64
  rw [if_pos (by omega)]
  omega

theorem viBranch7 (v : Int) (hlo : 2 ^ 41 ≤ v) (hhi : v < 2 ^ 48) (extra : List Nat) :
    varintDeserialize (varintSerialize v ++ extra) = v := by
  have hlen : varintSerializedLength v = 7 := by
    unfold varintSerializedLength
    rw [if_neg (by push_neg; omega), if_neg (by push_neg; omega), if_neg (by push_neg; omega), if_neg (by push_neg; omega),
      if_neg (by push_neg; omega), if_neg (by push_neg; omega), if_pos (by omega)]
  have hn : (twosComp64 v : Int) = v := twosComp64_of_nonneg v (by omega) (by omega)
  set n := twosComp64 v with hndef
  unfold varintSerialize
  rw [hlen]
  rw [if_pos (by norm_num)]
  rw [← hndef]
  rw [beBytes_drop8 7 n (by norm_num), beBytes_succ 6 n]
  simp only [List.modifyHead_cons, varintMarkByte]
  have hp : (256 : Nat) ^ 6 = 281474976710656 := by norm_num
  rw [hp]
  have hmod : n / 281474976710656 % 256 = n / 281474976710656 := by omega
  rw [hmod]
  have hand1 : n / 281474976710656 &&& 237 = n / 281474976710656 :=
    land_low_ones 0 _ 237 (by omega) (by norm_num)
  rw [hand1, Nat.lor_comm, lor_high 0 252 (n / 281474976710656) (by omega) (by norm_num)]
  rw [List.cons_append]
  simp only [varintDeserialize]
  rw [if_neg (by push_neg; omega), if_neg (by push_neg; omega), if_neg (by push_neg; omega), if_neg (by push_neg; omega),
    if_neg (by push_neg; omega), if_neg (by push_neg; omega), if_pos (by omega)]
  simp only [varintDecodeBranch]
  have hshift : (128 : Nat) >>> 7 = 1 := by decide
  rw [hshift]
  have hbit : (252 + n / 281474976710656) &&& 1 = 0 := by
    have h1 : (1 : Nat) = 2 ^ 0 := by norm_num
    rw [h1, Nat.and_two_pow, Nat.testBit_to_div_mod]
    have hz : (252 + n / 281474976710656) / 2 ^ 0 % 2 = 0 := by omega
    rw [hz]
    simp
  rw [hbit]
  simp only [lt_self_iff_false, if_false]
  simp only [varintFillAndMask]
  have hand2 : (252 + n / 281474976710656) &&& 1 = n / 281474976710656 := by
    have h1 : (1 : Nat) = 2 ^ 1 - 1 := by norm_num
    rw [h1, land_ones]
    omega
  rw [hand2]
  rw [List.take_left' (beBytes_length 6 n)]
  rw [fromBEBytes_replicate_zero, fromBEBytes_cons, fromBEBytes_beBytes, beBytes_length, hp]
  have hval : n / 281474976710656 * 281474976710656 + n % 281474976710656 = n := by omega
  rw [hval]
  unfold toI64
  rw [if_pos (by omega)]
  omega

theorem viBranch8 (v : Int) (hlo : 2 ^ 48 ≤ v) (hhi : v < 2 ^ 55) (extra : List Nat) :
    varintDeserialize (varintSerialize v ++ extra) = v := by
  have hlen : varintSerializedLength v = 8 := by
    unfold varintSerializedLength
    rw [if_neg (by push_neg; omega), if_neg (by push_neg; omega), if_neg (by push_neg; omega), if_neg (by push_neg; omega),
      if_neg (by push_neg; omega), if_neg (by push_neg; omega), if_neg (by push_neg; omega), if_pos (by omega)]
  have hn : (twosComp64 v : Int) = v := twosComp64_of_nonneg v (by omega) (by omega)
  set n := twosComp64 v with hndef
  unfold varintSerialize
  rw [hlen]
  rw [if_pos (by norm_num)]
  rw [← hndef]
  rw [beBytes_drop8 8 n (by norm_num), beBytes_succ 7 n]
  simp only [List.modifyHead_cons, varintMarkByte]
  rw [List.cons_append]
  simp only [varintDeserialize]
  rw [if_neg (by push_neg; omega), if_neg (by push_neg; omega), if_neg (by push_neg; omega), if_neg (by push_neg; omega),
    if_neg (by push_neg; omega), if_neg (by push_neg; omega), if_neg (by push_neg; omega), if_pos (by omega)]
  rw [beBytes_succ 6 n]
  have hp : (256 : Nat) ^ 6 = 281474976710656 := by norm_num
  rw [hp]
  have hmod : n / 281474976710656 % 256 = n / 281474976710656 := by omega
  rw [hmod]
  rw [List.cons_append, List.headD_cons]
  rw [if_pos (by omega)]
  rw [List.take_succ_cons, List.take_left' (beBytes_length 6 n)]
  rw [fromBEBytes_cons, fromBEBytes_cons, fromBEBytes_beBytes]
  simp only [List.length_cons, beBytes_length]
  rw [hp]
  have hval : 0 * 256 ^ (6 + 1) +
      (n / 281474976710656 * 281474976710656 + n % 281474976710656) = n := by
    omega
  rw [hval]
  unfold toI64
  rw [if_pos (by omega)]
  omega

theorem viBranch9 (v : Int) (hlo : 2 ^ 55 ≤ v) (hhi : v < 2 ^ 63) (extra : List Nat) :
    varintDeserialize (varintSerialize v ++ extra) = v := by
  have hlen : varintSerializedLength v = 9 := by
    unfold varintSerializedLength
    rw [if_neg (by push_neg; omega), if_neg (by push_neg; omega), if_neg (by push_neg; omega), if_neg (by push_neg; omega),
      if_neg (by push_neg; omega), if_neg (by push_neg; omega), if_neg (by push_neg; omega), if_neg (by push_neg; omega)]
  have hn : (twosComp64 v : Int) = v := twosComp64_of_nonneg v (by omega) (by omega)
  set n := twosComp64 v with hndef
  unfold varintSerialize
  rw [hlen]
  rw [if_neg (by norm_num)]
  rw [← hndef]
  rw [List.cons_append]
  simp only [varintDeserialize]
  rw [if_neg (by push_neg; omega), if_neg (by push_neg; omega), if_neg (by push_neg; omega), if_neg (by push_neg; omega),
    if_neg (by push_neg; omega), if_neg (by push_neg; omega), if_neg (by push_neg; omega), if_neg (by push_neg; omega)]
  rw [List.take_left' (beBytes_length 8 n)]
  rw [fromBEBytes_beBytes]
  have hp : (256 : Nat) ^ 8 = 18446744073709551616 := by norm_num
  rw [hp]
  have hmod : n % 18446744073709551616 = n := by omega
  rw [hmod]
  unfold toI64
  rw [if_pos (by omega)]
  omega

theorem viBranchNeg (v : Int) (hlo : -(2 ^ 63) ≤ v) (hhi : v < 0) (extra : List Nat) :
    varintDeserialize (varintSerialize v ++ extra) = v := by
  have hlen : varintSerializedLength v = 9 := by
    unfold varintSerializedLength
    rw [if_neg (by push_neg; omega), if_neg (by push_neg; omega), if_neg (by push_neg; omega), if_neg (by push_neg; omega),
      if_neg (by push_neg; omega), if_neg (by push_neg; omega), if_neg (by push_neg; omega), if_neg (by push_neg; omega)]
  have hn : (twosComp64 v : Int) = v + 2 ^ 64 := twosComp64_of_neg v hlo hhi
  set n := twosComp64 v with hndef
  unfold varintSerialize
  rw [hlen]
  rw [if_neg (by norm_num)]
  rw [← hndef]
  rw [List.cons_append]
  simp only [varintDeserialize]
  rw [if_neg (by push_neg; omega), if_neg (by push_neg; omega), if_neg (by push_neg; omega), if_neg (by push_neg; omega),
    if_neg (by push_neg; omega), if_neg (by push_neg; omega), if_neg (by push_neg; omega), if_neg (by push_neg; omega)]
  rw [List.take_left' (beBytes_length 8 n)]
  rw [fromBEBytes_beBytes]
  have hp : (256 : Nat) ^ 8 = 18446744073709551616 := by norm_num
  rw [hp]
  have hmod : n % 18446744073709551616 = n := by omega
  rw [hmod]
  unfold toI64
  rw [if_neg (by push_neg; omega)]
  omega

/-- Varint deserialize inverts serialize, for every representable i64
value and with any trailing bytes after the serialized ones. -/
theorem varint_roundtrip (v : Int) (h0 : -(2 ^ 63) ≤ v) (h1 : v < 2 ^ 63)
    (extra : List Nat) :
    varintDeserialize (varintSerialize v ++ extra) = v := by
  by_cases hneg : v < 0
  · exact viBranchNeg v h0 hneg extra
  by_cases hb1 : v < 2 ^ 6
  · exact viBranch1 v (by omega) hb1 extra
  by_cases hb2 : v < 2 ^ 13
  · exact viBranch2 v (by omega) hb2 extra
  by_cases hb3 : v < 2 ^ 20
  · exact viBranch3 v (by omega) hb3 extra
  by_cases hb4 : v < 2 ^ 27
  · exact viBranch4 v (by omega) hb4 extra
  by_cases hb5 : v < 2 ^ 34
  · exact viBranch5 v (by omega) hb5 extra
  by_cases hb6 : v < 2 ^ 41
  · exact viBranch6 v (by omega) hb6 extra
  by_cases hb7 : v < 2 ^ 48
  · exact viBranch7 v (by omega) hb7 extra
  by_cases hb8 : v < 2 ^ 55
  · exact viBranch8 v (by omega) hb8 extra
  exact viBranch9 v (by omega) h1 extra

theorem varintSerializedLength_bounds (v : Int) :
    1 ≤ varintSerializedLength v ∧ varintSerializedLength v ≤ 9 := by
  unfold varintSerializedLength
  split_ifs <;> omega

/-- Varint serialize writes exactly serialized_length bytes. -/
theorem varintSerialize_length (v : Int) :
    (varintSerialize v).length = varintSerializedLength v := by
  have hb := varintSerializedLength_bounds v
  unfold varintSerialize
  by_cases h : varintSerializedLength v ≤ 8
  · rw [if_pos h, List.length_modifyHead, List.length_drop, beBytes_length]
    omega
  · rw [if_neg h]
    simp [beBytes_length]
    omega

/-! ## Varchar, Varpair and fixed width roundtrips -/

/-- Varchar deserialize inverts serialize: it recovers the length and
the data bytes, with any trailing bytes present. -/
theorem varchar_roundtrip (s : List Nat) (hs : s.length < 2 ^ 64) (extra : List Nat) :
    varcharDeserialize (varcharSerialize s ++ extra) = (s.length, s) := by
  unfold varcharSerialize varcharDeserialize
  rw [List.append_assoc, varlength_roundtrip s.length hs (s ++ extra)]
  dsimp only
  rw [List.drop_left' (varlengthSerialize_length s.length)]
  rw [List.take_left' rfl]

theorem varcharSerialize_length (s : List Nat) :
    (varcharSerialize s).length = varlengthSerializedLength s.length + s.length := by
  unfold varcharSerialize
  rw [List.length_append, varlengthSerialize_length]

/-- Varpair deserialize inverts serialize, generically in the two
component codecs: whenever each component roundtrips on its
representable values (predicates P and Q) in the presence of trailing
bytes and the left serializer writes exactly serialized_length bytes,
the pair roundtrips on pairs of representable values. -/
theorem varpair_roundtrip {α β : Type} (P : α → Prop) (Q : β → Prop)
    (serL : α → List Nat) (deserL : List Nat → α)
    (lenL : α → Nat) (serR : β → List Nat) (deserR : List Nat → β)
    (hL : ∀ a, P a → ∀ extra, deserL (serL a ++ extra) = a)
    (hlenL : ∀ a, (serL a).length = lenL a)
    (hR : ∀ b, Q b → ∀ extra, deserR (serR b ++ extra) = b)
    (p : α × β) (extra : List Nat) (hP : P p.1) (hQ : Q p.2) :
    varpairDeserialize deserL lenL deserR (varpairSerialize serL serR p ++ extra) = p := by
  unfold varpairSerialize varpairDeserialize
  rw [List.append_assoc, hL p.1 hP (serR p.2 ++ extra)]
  dsimp only
  rw [List.drop_left' (hlenL p.1), hR p.2 hQ extra]

theorem fromLEBytes_leBytes (n v : Nat) : fromLEBytes (leBytes n v) = v % 256 ^ n := by
  induction n generalizing v with
  | zero => simp [leBytes, fromLEBytes, Nat.mod_one]
  | succ n ih =>
    show fromLEBytes (v % 256 :: leBytes n (v / 256)) = _
    unfold fromLEBytes
    rw [ih]
    rw [pow_succ, mul_comm (256 ^ n) 256, Nat.mod_mul]

/-- Fixed width counts roundtrip for every representable value of the
width. -/
theorem fixedCount_roundtrip (w n : Nat) (h : n < 2 ^ (8 * w)) (extra : List Nat) :
    fixedCountDeserialize w (fixedCountSerialize w n ++ extra) = n := by
  unfold fixedCountSerialize fixedCountDeserialize
  rw [List.take_left' (leBytes_length w n), fromLEBytes_leBytes]
  have hp : (256 : Nat) ^ w = 2 ^ (8 * w) := by
    rw [show (256 : Nat) = 2 ^ 8 by norm_num, ← pow_mul]
  rw [hp]
  exact Nat.mod_eq_of_lt h

theorem fiW1 (v : Int) (h0 : -(2 ^ 7) ≤ v) (h1 : v < 2 ^ 7) (extra : List Nat) :
    fixedIntegerDeserialize 1 (fixedIntegerSerialize 1 v ++ extra) = v := by
  unfold fixedIntegerSerialize fixedIntegerDeserialize
  rw [List.take_left' (leBytes_length 1 _), fromLEBytes_leBytes]
  have hm : (((v % (2 : Int) ^ (8 * 1)).toNat) : Int) = v % 256 := by
    rw [Int.toNat_of_nonneg (Int.emod_nonneg v (by norm_num))]
    norm_num
  set m := (v % (2 : Int) ^ (8 * 1)).toNat with hmdef
  have hmod : m % 256 ^ 1 = m := by
    have : m < 256 := by omega
    simp only [pow_one]
    omega
  rw [hmod]
  norm_num
  split_ifs <;> omega

theorem fiW2 (v : Int) (h0 : -(2 ^ 15) ≤ v) (h1 : v < 2 ^ 15) (extra : List Nat) :
    fixedIntegerDeserialize 2 (fixedIntegerSerialize 2 v ++ extra) = v := by
  unfold fixedIntegerSerialize fixedIntegerDeserialize
  rw [List.take_left' (leBytes_length 2 _), fromLEBytes_leBytes]
  have hm : (((v % (2 : Int) ^ (8 * 2)).toNat) : Int) = v % 65536 := by
    rw [Int.toNat_of_nonneg (Int.emod_nonneg v (by norm_num))]
    norm_num
  set m := (v % (2 : Int) ^ (8 * 2)).toNat with hmdef
  have hmod : m % 256 ^ 2 = m := by
    have h256 : (256 : Nat) ^ 2 = 65536 := by norm_num
    have : m < 65536 := by omega
    omega
  rw [hmod]
  norm_num
  split_ifs <;> omega

theorem fiW4 (v : Int) (h0 : -(2 ^ 31) ≤ v) (h1 : v < 2 ^ 31) (extra : List Nat) :
    fixedIntegerDeserialize 4 (fixedIntegerSerialize 4 v ++ extra) = v := by
  unfold fixedIntegerSerialize fixedIntegerDeserialize
  rw [List.take_left' (leBytes_length 4 _), fromLEBytes_leBytes]
  have hm : (((v % (2 : Int) ^ (8 * 4)).toNat) : Int) = v % 4294967296 := by
    rw [Int.toNat_of_nonneg (Int.emod_nonneg v (by norm_num))]
    norm_num
  set m := (v % (2 : Int) ^ (8 * 4)).toNat with hmdef
  have hmod : m % 256 ^ 4 = m := by
    have h256 : (256 : Nat) ^ 4 = 4294967296 := by norm_num
    have : m < 4294967296 := by omega
    omega
  rw [hmod]
  norm_num
  split_ifs <;> omega

theorem fiW8 (v : Int) (h0 : -(2 ^ 63) ≤ v) (h1 : v < 2 ^ 63) (extra : List Nat) :
    fixedIntegerDeserialize 8 (fixedIntegerSerialize 8 v ++ extra) = v := by
  unfold fixedIntegerSerialize fixedIntegerDeserialize
  rw [List.take_left' (leBytes_length 8 _), fromLEBytes_leBytes]
  have hm : (((v % (2 : Int) ^ (8 * 8)).toNat) : Int) = v % 18446744073709551616 := by
    rw [Int.toNat_of_nonneg (Int.emod_nonneg v (by norm_num))]
    norm_num
  set m := (v % (2 : Int) ^ (8 * 8)).toNat with hmdef
  have hmod : m % 256 ^ 8 = m := by
    have h256 : (256 : Nat) ^ 8 = 18446744073709551616 := by norm_num
    have : m < 18446744073709551616 := by omega
    omega
  rw [hmod]
  norm_num
  split_ifs <;> omega

theorem fiW16 (v : Int) (h0 : -(2 ^ 127) ≤ v) (h1 : v < 2 ^ 127) (extra : List Nat) :
    fixedIntegerDeserialize 16 (fixedIntegerSerialize 16 v ++ extra) = v := by
  unfold fixedIntegerSerialize fixedIntegerDeserialize
  rw [List.take_left' (leBytes_length 16 _), fromLEBytes_leBytes]
  have hm : (((v % (2 : Int) ^ (8 * 16)).toNat) : Int) =
      v % 340282366920938463463374607431768211456 := by
    rw [Int.toNat_of_nonneg (Int.emod_nonneg v (by norm_num))]
    norm_num
  set m := (v % (2 : Int) ^ (8 * 16)).toNat with hmdef
  have hmod : m % 256 ^ 16 = m := by
    have h256 : (256 : Nat) ^ 16 = 340282366920938463463374607431768211456 := by norm_num
    have : m < 340282366920938463463374607431768211456 := by omega
    omega
  rw [hmod]
  norm_num
  split_ifs <;> omega

/-! ## Claim theorems -/

/-- C1: for every codec type (Varcount/Varlength, Varint, Varchar,
Varpair, fixed width integers and counts) and every representable
value v, deserialize (serialize v) = v even with trailing buffer
bytes, and serialized_length v equals the number of bytes serialize
writes. The Varpair conjunct is generic in the component codecs,
mirroring the generic impl. -/
theorem c1_codec_roundtrip :
    (∀ v : Nat, v < 2 ^ 64 → ∀ extra : List Nat,
      varlengthDeserialize (varlengthSerialize v ++ extra) = v ∧
      (varlengthSerialize v).length = varlengthSerializedLength v) ∧
    (∀ v : Int, -(2 ^ 63) ≤ v → v < 2 ^ 63 → ∀ extra : List Nat,
      varintDeserialize (varintSerialize v ++ extra) = v ∧
      (varintSerialize v).length = varintSerializedLength v) ∧
    (∀ s : List Nat, s.length < 2 ^ 64 → ∀ extra : List Nat,
      varcharDeserialize (varcharSerialize s ++ extra) = (s.length, s) ∧
      (varcharSerialize s).length = varlengthSerializedLength s.length + s.length) ∧
    (∀ w n : Nat, n < 2 ^ (8 * w) → ∀ extra : List Nat,
      fixedCountDeserialize w (fixedCountSerialize w n ++ extra) = n ∧
      (fixedCountSerialize w n).length = w) ∧
    (∀ v : Int, ∀ extra : List Nat,
      (-(2 ^ 7) ≤ v → v < 2 ^ 7 →
        fixedIntegerDeserialize 1 (fixedIntegerSerialize 1 v ++ extra) = v) ∧
      (-(2 ^ 15) ≤ v → v < 2 ^ 15 →
        fixedIntegerDeserialize 2 (fixedIntegerSerialize 2 v ++ extra) = v) ∧
      (-(2 ^ 31) ≤ v → v < 2 ^ 31 →
        fixedIntegerDeserialize 4 (fixedIntegerSerialize 4 v ++ extra) = v) ∧
      (-(2 ^ 63) ≤ v → v < 2 ^ 63 →
        fixedIntegerDeserialize 8 (fixedIntegerSerialize 8 v ++ extra) = v) ∧
      (-(2 ^ 127) ≤ v → v < 2 ^ 127 →
        fixedIntegerDeserialize 16 (fixedIntegerSerialize 16 v ++ extra) = v) ∧
      ∀ w : Nat, (fixedIntegerSerialize w v).length = w) ∧
    (∀ (α β : Type) (P : α → Prop) (Q : β → Prop)
      (serL : α → List Nat) (deserL : List Nat → α) (lenL : α → Nat)
      (serR : β → List Nat) (deserR : List Nat → β),
      (∀ a, P a → ∀ extra, deserL (serL a ++ extra) = a) →
      (∀ a, (serL a).length = lenL a) →
      (∀ b, Q b → ∀ extra, deserR (serR b ++ extra) = b) →
      ∀ (p : α × β) (extra : List Nat), P p.1 → Q p.2 →
        varpairDeserialize deserL lenL deserR (varpairSerialize serL serR p ++ extra) = p ∧
        (varpairSerialize serL serR p).length = (serL p.1).length + (serR p.2).length) := by
  refine ⟨?_, ?_, ?_, ?_, ?_, ?_⟩
  · intro v hv extra
    exact ⟨varlength_roundtrip v hv extra, varlengthSerialize_length v⟩
  · intro v h0 h1 extra
    exact ⟨varint_roundtrip v h0 h1 extra, varintSerialize_length v⟩
  · intro s hs extra
    exact ⟨varchar_roundtrip s hs extra, varcharSerialize_length s⟩
  · intro w n h extra
    exact ⟨fixedCount_roundtrip w n h extra, leBytes_length w n⟩
  · intro v extra
    refine ⟨fun h0 h1 => fiW1 v h0 h1 extra, fun h0 h1 => fiW2 v h0 h1 extra,
      fun h0 h1 => fiW4 v h0 h1 extra, fun h0 h1 => fiW8 v h0 h1 extra,
      fun h0 h1 => fiW16 v h0 h1 extra, fun w => leBytes_length w _⟩
  · intro α β P Q serL deserL lenL serR deserR hL hlenL hR p extra hP hQ
    refine ⟨varpair_roundtrip P Q serL deserL lenL serR deserR hL hlenL hR p extra hP hQ, ?_⟩
    unfold varpairSerialize
    rw [List.length_append]

/-- Witness for C1 at concrete inputs: the Varlength 300, the Varint
-3, the Varchar bytes of abc, the Count value 42 of width 4, the
Integer -5 of width 4, and the Varpair of two Varlengths. -/
theorem c1_codec_roundtrip_witness :
    varlengthDeserialize (varlengthSerialize 300 ++ [9]) = 300 ∧
    varintDeserialize (varintSerialize (-3) ++ [9]) = -3 ∧
    varcharDeserialize (varcharSerialize [97, 98, 99] ++ [9]) = (3, [97, 98, 99]) ∧
    fixedCountDeserialize 4 (fixedCountSerialize 4 42 ++ [9]) = 42 ∧
    fixedIntegerDeserialize 4 (fixedIntegerSerialize 4 (-5) ++ [9]) = -5 ∧
    varpairDeserialize varlengthDeserialize varlengthSerializedLength varlengthDeserialize
        (varpairSerialize varlengthSerialize varlengthSerialize (300, 7) ++ [9])
      = (300, 7) := by
  refine ⟨(c1_codec_roundtrip.1 300 (by norm_num) [9]).1,
    (c1_codec_roundtrip.2.1 (-3) (by norm_num) (by norm_num) [9]).1,
    (c1_codec_roundtrip.2.2.1 [97, 98, 99] (by norm_num) [9]).1,
    (c1_codec_roundtrip.2.2.2.1 4 42 (by norm_num) [9]).1,
    (c1_codec_roundtrip.2.2.2.2.1 (-5) [9]).2.2.1 (by norm_num) (by norm_num),
    (c1_codec_roundtrip.2.2.2.2.2 Nat Nat (fun a => a < 2 ^ 64) (fun b => b < 2 ^ 64)
      varlengthSerialize varlengthDeserialize
      varlengthSerializedLength varlengthSerialize varlengthDeserialize
      (fun a ha extra => varlength_roundtrip a ha extra)
      (fun a => varlengthSerialize_length a)
      (fun b hb extra => varlength_roundtrip b hb extra)
      (300, 7) [9] (by norm_num) (by norm_num)).1⟩

/-- C2: the claim says small negative Varints fit small lengths; in
the code the negative arm of serialized_length compares the POSITIVE
power against the negative value, a condition nothing satisfies, so
every negative value falls through to nine bytes: the value -1 has
serialized_length 9 (the claim expects 1) and serialize writes 9
bytes. -/
theorem c2_varint_negative_gets_nine_bytes :
    varintSerializedLength (-1) = 9 ∧ (varintSerialize (-1)).length = 9 := by
  constructor
  · rfl
  · rw [varintSerialize_length]
    rfl

/-- C3: on a fresh 16-byte-block log, two one-byte records are
appended (latest becomes 2, last_saved stays 0); flush with lsn 1
satisfies lsn at least last_saved, so per the claim it must write the
head page and set last_saved to latest, but the code compares lsn
against LATEST and leaves the state completely unchanged; flushing at
lsn 2 does write. -/
theorem c3_flush_compares_latest_not_last_saved :
    (((logInit 16).bind (fun s0 => logAppend s0 [7])).bind
      (fun r1 => (logAppend r1.1 [8]).map (fun r2 =>
        (r2.1.latest, r2.1.lastSaved, logFlush r2.1 1 == r2.1,
         (logFlush r2.1 2).lastSaved))))
    = some (2, 0, true, 2) := by decide

/-- C4 counterexample: appending the record with single byte 7 to a
fresh 16-byte-block log puts the record at position 11, and the bytes
there are 1, 7, 0, 0, 0 (a one-byte Varcount length followed by the
record byte), not the 4-byte little-endian length layout 1, 0, 0, 0, 7
the claim asserts. -/
theorem c4_counterexample :
    ((logInit 16).bind (fun s0 => logAppend s0 [7])).map
        (fun r => ((r.1.page.drop 11).take 5, (r.1.page.drop 11).take 5 == [1, 0, 0, 0, 7]))
      = some ([1, 7, 0, 0, 0], false) := by decide

/-- C5: with a pool of one buffer, pinning the same block twice and
unpinning once leaves the buffer pinned (count 1) yet num_available
has been incremented to 1 while zero buffers are unpinned; the second
unpin drives num_available to 2, above pool_size 1. The source unpin
increments num_available on every call, not only when the pin count
reaches zero, so both halves of the claim fail on this trace. -/
theorem c5_unpin_increments_unconditionally :
    bmPin (bmInit 1) 5
      = some ({ pool := [{ pins := 1, block := some 5 }], numAvailable := 0, poolSize := 1 }, 0) ∧
    bmPin { pool := [{ pins := 1, block := some 5 }], numAvailable := 0, poolSize := 1 } 5
      = some ({ pool := [{ pins := 2, block := some 5 }], numAvailable := 0, poolSize := 1 }, 0) ∧
    bmUnpin { pool := [{ pins := 2, block := some 5 }], numAvailable := 0, poolSize := 1 } 0
      = { pool := [{ pins := 1, block := some 5 }], numAvailable := 1, poolSize := 1 } ∧
    bmUnpinnedCount { pool := [{ pins := 1, block := some 5 }], numAvailable := 1, poolSize := 1 }
      = 0 ∧
    bmUnpin { pool := [{ pins := 1, block := some 5 }], numAvailable := 1, poolSize := 1 } 0
      = { pool := [{ pins := 0, block := some 5 }], numAvailable := 2, poolSize := 1 } := by
  decide

/-- C6 counterexample: there is no EncodingError in the sources; the
serialize entry points index the buffer directly. Serializing the
value 0 (one byte) into an empty buffer panics (none) instead of
returning ShortBuffer, and serializing a nine-byte value into a
TEN-byte buffer, which is at least serialized_length, also panics
because the source copies into buffer[1..] whose length must be
exactly eight. -/
theorem c6_counterexample :
    varlengthSerializeBuffered 0 [] = none ∧
    varlengthSerializedLength (2 ^ 56) = 9 ∧
    varlengthSerializeBuffered (2 ^ 56) (List.replicate 10 0) = none := by
  refine ⟨rfl, rfl, ?_⟩
  decide

/-- C6 amended: the codec traits return no errors; a Varlength or
Varint serialize call succeeds exactly when the buffer is long enough
for lengths up to eight, and exactly nine bytes long for nine-byte
encodings; any other buffer panics (none). Deserializing an empty
buffer panics, and a successful buffered deserialize agrees with the
unchecked deserialize. -/
theorem c6_buffer_requirements :
    (∀ (v : Nat) (buffer : List Nat),
      (varlengthSerializeBuffered v buffer).isSome = true ↔
        (if varlengthSerializedLength v ≤ 8 then varlengthSerializedLength v ≤ buffer.length
         else buffer.length = 9)) ∧
    (∀ (v : Int) (buffer : List Nat),
      (varintSerializeBuffered v buffer).isSome = true ↔
        (if varintSerializedLength v ≤ 8 then varintSerializedLength v ≤ buffer.length
         else buffer.length = 9)) ∧
    varlengthDeserializeBuffered [] = none ∧
    (∀ (buffer : List Nat) (n : Nat),
      varlengthDeserializeBuffered buffer = some n → varlengthDeserialize buffer = n) := by
  refine ⟨?_, ?_, rfl, ?_⟩
  · intro v buffer
    unfold varlengthSerializeBuffered
    by_cases h8 : varlengthSerializedLength v ≤ 8
    · rw [if_pos h8, if_pos h8]
      by_cases hb : varlengthSerializedLength v ≤ buffer.length
      · rw [if_pos hb]
        simp [hb]
      · rw [if_neg hb]
        simp [hb]
    · rw [if_neg h8, if_neg h8]
      by_cases hb : buffer.length = 9
      · rw [if_pos hb]
        simp [hb]
      · rw [if_neg hb]
        simp [hb]
  · intro v buffer
    unfold varintSerializeBuffered
    by_cases h8 : varintSerializedLength v ≤ 8
    · rw [if_pos h8, if_pos h8]
      by_cases hb : varintSerializedLength v ≤ buffer.length
      · rw [if_pos hb]
        simp [hb]
      · rw [if_neg hb]
        simp [hb]
    · rw [if_neg h8, if_neg h8]
      by_cases hb : buffer.length = 9
      · rw [if_pos hb]
        simp [hb]
      · rw [if_neg hb]
        simp [hb]
  · intro buffer n h
    unfold varlengthDeserializeBuffered at h
    match buffer, h with
    | b0 :: rest, h =>
      dsimp only at h
      split_ifs at h <;> exact Option.some.inj h

/-- C8 counterexample: on a fresh cache of capacity 2, creating key 3
and then hitting it leaves the access counter at 1 and the freshness
of the entry at 0; had the hit refreshed the entry as the claim
states, the counter would be 2 and the freshness would be
refreshAccess 1 0 = (2, 1), that is 1. Hits served under the read
lock do not update freshness. -/
theorem c8_counterexample :
    cacheRun [(3, some 10), (3, some 10)] (cacheInit 2)
      = { entries := [{ key := 3, resource := some 10, freshness := 0 }],
          capacity := 2, openResources := 1, accessCounter := 1 } ∧
    refreshAccess 1 0 = (2, 1) := by decide

/-- C8 amended: a hit served under the read lock returns the open
resource and leaves the whole cache state unchanged (no freshness or
counter update); the refresh formula, freshness becomes the
post-incremented old counter plus half the old freshness, lives in
refresh_access, which only the write-lock double check reaches. -/
theorem c8_read_hit_leaves_state_unchanged :
    (∀ (s : CacheState) (k : Nat) (factory : Option Nat) (e : CacheEntry) (r : Nat),
      cacheLookup s.entries k = some e → e.resource = some r →
      getOrCreate s k factory = (.ok r, s)) ∧
    (∀ counter freshness : Nat,
      refreshAccess counter freshness = (counter + 1, counter + freshness / 2)) := by
  constructor
  · intro s k factory e r hl hr
    unfold getOrCreate
    rw [hl]
    dsimp only
    rw [hr]
  · intro c f
    rfl

/-- Witness for the C8 amended theorem at a concrete state: hitting
key 3 of a one-entry cache returns its resource 10 and the exact same
state. -/
theorem c8_read_hit_leaves_state_unchanged_witness :
    getOrCreate
        { entries := [{ key := 3, resource := some 10, freshness := 0 }],
          capacity := 2, openResources := 1, accessCounter := 1 } 3 (some 99)
      = (.ok 10,
         { entries := [{ key := 3, resource := some 10, freshness := 0 }],
           capacity := 2, openResources := 1, accessCounter := 1 }) :=
  c8_read_hit_leaves_state_unchanged.1
    { entries := [{ key := 3, resource := some 10, freshness := 0 }],
      capacity := 2, openResources := 1, accessCounter := 1 }
    3 (some 99) { key := 3, resource := some 10, freshness := 0 } 10 (by decide) (by decide)

/-- C9: a get_file failure makes block_length and append panic (the
source unwraps the Result), while read propagates the same failure as
an Err; on success block_length divides the file length by the block
size. -/
theorem c9_block_length_and_append_panic :
    fileManagerBlockLength (.error "get_file open failed") 4096 = none ∧
    fileManagerAppend (.error "get_file open failed") 4096 = none ∧
    fileManagerRead (.error "get_file open failed") = some (.error "get_file open failed") ∧
    fileManagerBlockLength (.ok 8192) 4096 = some (.ok 2) := by
  exact ⟨rfl, rfl, rfl, rfl⟩

/-- C10 counterexample: with block size 6, the two-byte record 9, 9
has record length + 8 equal to 10, above the block size, yet append
returns successfully (latest 1) instead of panicking: the claim that
append only succeeds when record length + 8 fits the block is false. -/
theorem c10_counterexample :
    ((logInit 6).bind (fun s0 => logAppend s0 [9, 9])).map (fun r => r.2)
      = some (1, 0) := by decide

/-! ## Cache invariant lemmas for C7 -/

theorem cacheOpenCount_cons (e : CacheEntry) (es : List CacheEntry) :
    cacheOpenCount (e :: es) = (if e.resource.isSome then 1 else 0) + cacheOpenCount es := by
  unfold cacheOpenCount
  rw [List.filter_cons]
  split_ifs with h <;> simp [h, Nat.add_comm]

theorem cacheMinFresh_mem (es : List CacheEntry) (m : Nat)
    (h : cacheMinFresh es = some m) :
    ∃ e ∈ es, e.resource.isSome = true ∧ e.freshness = m := by
  unfold cacheMinFresh at h
  have hmem := List.min?_mem (fun a b : Nat => by omega) h
  rcases List.mem_filterMap.mp hmem with ⟨e, he, hf⟩
  by_cases hopen : e.resource.isSome
  · rw [if_pos hopen] at hf
    exact ⟨e, he, hopen, Option.some.inj hf⟩
  · rw [if_neg hopen] at hf
    exact absurd hf (by simp)

theorem cacheOpenCount_close (es : List CacheEntry) (m : Nat)
    (h : ∃ e ∈ es, e.resource.isSome = true ∧ e.freshness = m) :
    cacheOpenCount (closeFirstMinOpen es m) + 1 = cacheOpenCount es := by
  induction es with
  | nil => simp at h
  | cons e es ih =>
    by_cases hc : (e.resource.isSome = true ∧ e.freshness = m)
    · unfold closeFirstMinOpen
      rw [if_pos hc, cacheOpenCount_cons, cacheOpenCount_cons]
      have hclosed : ({ e with resource := none } : CacheEntry).resource.isSome = false := rfl
      rw [hclosed]
      simp [hc.1]
      omega
    · unfold closeFirstMinOpen
      rw [if_neg hc, cacheOpenCount_cons, cacheOpenCount_cons]
      have hes : ∃ e2 ∈ es, e2.resource.isSome = true ∧ e2.freshness = m := by
        rcases h with ⟨e2, he2, hprop⟩
        rcases List.mem_cons.mp he2 with he2e | he2es
        · exact absurd (he2e ▸ hprop) hc
        · exact ⟨e2, he2es, hprop⟩
      have := ih hes
      omega

theorem cacheOpenCount_insert (es : List CacheEntry) (k v f : Nat)
    (h : ∀ e, cacheLookup es k = some e → e.resource = none) :
    cacheOpenCount (cacheInsert es k v f) = cacheOpenCount es + 1 := by
  induction es with
  | nil => rfl
  | cons e es ih =>
    by_cases hk : e.key = k
    · have he : e.resource = none := by
        apply h e
        unfold cacheLookup
        exact List.find?_cons_of_pos _ (by simp [hk])
      unfold cacheInsert
      rw [if_pos hk, cacheOpenCount_cons, cacheOpenCount_cons]
      simp [he]
      omega
    · unfold cacheInsert
      rw [if_neg hk, cacheOpenCount_cons, cacheOpenCount_cons]
      have h2 : ∀ e2, cacheLookup es k = some e2 → e2.resource = none := by
        intro e2 h3
        apply h e2
        unfold cacheLookup at h3 ⊢
        rw [List.find?_cons_of_neg _ (by simp [hk])]
        exact h3
      rw [ih h2]
      omega

theorem cacheLookup_close (es : List CacheEntry) (k m : Nat)
    (h : ∀ e, cacheLookup es k = some e → e.resource = none) :
    ∀ e, cacheLookup (closeFirstMinOpen es m) k = some e → e.resource = none := by
  induction es with
  | nil =>
    intro e he
    simp [closeFirstMinOpen, cacheLookup] at he
  | cons e0 es ih =>
    by_cases hc : (e0.resource.isSome = true ∧ e0.freshness = m)
    · unfold closeFirstMinOpen
      rw [if_pos hc]
      intro e he
      by_cases hk : e0.key = k
      · unfold cacheLookup at he
        rw [List.find?_cons_of_pos _ (by simp [hk])] at he
        rw [← Option.some.inj he]
      · unfold cacheLookup at he
        rw [List.find?_cons_of_neg _ (by simp [hk])] at he
        apply h e
        unfold cacheLookup
        rw [List.find?_cons_of_neg _ (by simp [hk])]
        exact he
    · unfold closeFirstMinOpen
      rw [if_neg hc]
      intro e he
      by_cases hk : e0.key = k
      · unfold cacheLookup at he
        rw [List.find?_cons_of_pos _ (by simp [hk])] at he
        have he0 : e = e0 := (Option.some.inj he).symm
        rw [he0]
        apply h e0
        unfold cacheLookup
        rw [List.find?_cons_of_pos _ (by simp [hk])]
      · unfold cacheLookup at he
        rw [List.find?_cons_of_neg _ (by simp [hk])] at he
        have h2 : ∀ e2, cacheLookup es k = some e2 → e2.resource = none := by
          intro e2 h3
          apply h e2
          unfold cacheLookup
          rw [List.find?_cons_of_neg _ (by simp [hk])]
          exact h3
        exact ih h2 e he

theorem getOrCreateMiss_preserves (s : CacheState) (k : Nat) (f : Option Nat)
    (hcold : ∀ e, cacheLookup s.entries k = some e → e.resource = none)
    (h1 : cacheOpenCount s.entries = s.openResources)
    (h2 : s.openResources ≤ s.capacity) :
    cacheOpenCount (getOrCreateMiss s k f).2.entries = (getOrCreateMiss s k f).2.openResources ∧
      (getOrCreateMiss s k f).2.openResources ≤ (getOrCreateMiss s k f).2.capacity := by
  unfold getOrCreateMiss
  cases f with
  | none => exact ⟨h1, h2⟩
  | some v =>
    dsimp only
    by_cases hcap : s.openResources < s.capacity
    · rw [if_pos hcap]
      dsimp only
      rw [cacheOpenCount_insert s.entries k v _ hcold]
      exact ⟨by omega, by omega⟩
    · rw [if_neg hcap]
      cases hm : cacheMinFresh s.entries with
      | none => exact ⟨h1, h2⟩
      | some m =>
        dsimp only
        have hmem := cacheMinFresh_mem _ _ hm
        have hclose := cacheOpenCount_close s.entries m hmem
        have hcold2 := cacheLookup_close s.entries k m hcold
        rw [cacheOpenCount_insert _ k v _ hcold2]
        exact ⟨by omega, h2⟩

theorem getOrCreate_preserves (s : CacheState) (k : Nat) (f : Option Nat)
    (h1 : cacheOpenCount s.entries = s.openResources)
    (h2 : s.openResources ≤ s.capacity) :
    cacheOpenCount (getOrCreate s k f).2.entries = (getOrCreate s k f).2.openResources ∧
      (getOrCreate s k f).2.openResources ≤ (getOrCreate s k f).2.capacity := by
  unfold getOrCreate
  cases hl : cacheLookup s.entries k with
  | none =>
    dsimp only
    apply getOrCreateMiss_preserves s k f _ h1 h2
    intro e he
    rw [hl] at he
    exact absurd he (by simp)
  | some e =>
    dsimp only
    cases hr : e.resource with
    | none =>
      dsimp only
      apply getOrCreateMiss_preserves s k f _ h1 h2
      intro e2 he2
      rw [hl] at he2
      rw [← Option.some.inj he2]
      exact hr
    | some r =>
      dsimp only
      exact ⟨h1, h2⟩

theorem cacheRun_preserves (ops : List (Nat × Option Nat)) (s : CacheState)
    (h1 : cacheOpenCount s.entries = s.openResources)
    (h2 : s.openResources ≤ s.capacity) :
    cacheOpenCount (cacheRun ops s).entries = (cacheRun ops s).openResources ∧
      (cacheRun ops s).openResources ≤ (cacheRun ops s).capacity := by
  induction ops generalizing s with
  | nil => exact ⟨h1, h2⟩
  | cons op ops ih =>
    have hstep := getOrCreate_preserves s op.1 op.2 h1 h2
    exact ih (getOrCreate s op.1 op.2).2 hstep.1 hstep.2

/-- C7: after any sequence of get_or_create calls (with factories that
succeed or fail arbitrarily) from a fresh cache, the open_resources
counter that len_open reports equals the number of open entries and
never exceeds the capacity; a call whose factory fails (and that
needed the factory) propagates the error and leaves the cache state
unchanged, and a call with a failing factory never changes the
state either way. -/
theorem c7_cache_open_bounded :
    (∀ (ops : List (Nat × Option Nat)) (cap : Nat),
      cacheOpenCount (cacheRun ops (cacheInit cap)).entries
          = (cacheRun ops (cacheInit cap)).openResources ∧
        (cacheRun ops (cacheInit cap)).openResources
          ≤ (cacheRun ops (cacheInit cap)).capacity) ∧
    (∀ (s : CacheState) (k : Nat),
      (getOrCreate s k none).2 = s ∧
        ((getOrCreate s k none).1 = .err ∨ ∃ r, (getOrCreate s k none).1 = .ok r)) := by
  constructor
  · intro ops cap
    exact cacheRun_preserves ops (cacheInit cap) rfl (by exact Nat.zero_le cap)
  · intro s k
    unfold getOrCreate
    cases hl : cacheLookup s.entries k with
    | none => exact ⟨rfl, Or.inl rfl⟩
    | some e =>
      dsimp only
      cases hr : e.resource with
      | none => exact ⟨rfl, Or.inl rfl⟩
      | some r => exact ⟨rfl, Or.inr ⟨r, rfl⟩⟩

/-! ## Log manager write lemmas for C4 and C10 -/

theorem varlengthSerializedLength_le_four (n : Nat) (h : n < 2 ^ 28) :
    varlengthSerializedLength n ≤ 4 := by
  unfold varlengthSerializedLength
  split_ifs <;> omega

theorem castUsize_natCast (n : Nat) (h : n < 2 ^ 64) : castUsize (n : Int) = n := by
  unfold castUsize
  omega

theorem toI32_small (n : Nat) (h : n < 2 ^ 31) : toI32 n = (n : Int) := by
  unfold toI32
  rw [if_pos h]

theorem twosComp32_of_nonneg (v : Int) (h0 : 0 ≤ v) (h1 : v < 2 ^ 32) :
    (twosComp32 v : Int) = v := by
  unfold twosComp32
  have hm : v % (2 : Int) ^ 32 = v := by omega
  rw [hm, Int.toNat_of_nonneg h0]

theorem listWriteAt_eq (page : List Nat) (off : Nat) (src : List Nat)
    (h : off + src.length ≤ page.length) :
    listWriteAt page off src
      = some (page.take off ++ src ++ page.drop (off + src.length)) := by
  unfold listWriteAt
  rw [if_pos h]

theorem pageSetI32_zero_read (page : List Nat) (v : Int) (h4 : 4 ≤ page.length)
    (h0 : 0 ≤ v) (h1 : v < 2 ^ 31) :
    pageSetI32 page 0 v = some (leBytes 4 (twosComp32 v) ++ page.drop 4) ∧
      (leBytes 4 (twosComp32 v) ++ page.drop 4).length = page.length ∧
      pageGetI32 (leBytes 4 (twosComp32 v) ++ page.drop 4) 0 = some v := by
  refine ⟨?_, ?_, ?_⟩
  · unfold pageSetI32
    rw [listWriteAt_eq _ _ _ (by rw [leBytes_length]; omega)]
    simp [leBytes_length]
  · simp [leBytes_length, List.length_drop]
    omega
  · unfold pageGetI32
    rw [if_pos (by simp only [List.length_append, leBytes_length, List.length_drop]; omega)]
    rw [List.drop_zero, List.take_left' (leBytes_length 4 _), fromLEBytes_leBytes]
    have hn : (twosComp32 v : Int) = v := twosComp32_of_nonneg v h0 (by omega)
    have h2 : (256 : Nat) ^ 4 = 4294967296 := by norm_num
    have hmod : twosComp32 v % 256 ^ 4 = twosComp32 v := by omega
    rw [hmod]
    unfold toI32
    rw [if_pos (by omega)]
    rw [hn]

theorem pageSetBytes_eq (page : List Nat) (off : Nat) (value : List Nat)
    (hsmall : value.length < 2 ^ 28)
    (hfit : off + varlengthSerializedLength value.length + value.length ≤ page.length) :
    pageSetBytes page off value
      = some (page.take off ++ varlengthSerialize value.length ++ value
          ++ page.drop (off + varlengthSerializedLength value.length + value.length)) := by
  have hL4 : varlengthSerializedLength value.length ≤ 4 :=
    varlengthSerializedLength_le_four _ hsmall
  have hL1 : 1 ≤ varlengthSerializedLength value.length :=
    (varlengthSerializedLength_bounds _).1
  set L := varlengthSerializedLength value.length with hLdef
  have hser : varlengthSerializeBuffered value.length (page.drop off)
      = some (varlengthSerialize value.length ++ (page.drop off).drop L) := by
    unfold varlengthSerializeBuffered
    rw [if_pos (by omega), if_pos (by rw [List.length_drop]; omega)]
  unfold pageSetBytes
  rw [hser]
  dsimp only
  rw [listWriteAt_eq _ _ _ ?hfit2]
  case hfit2 =>
    simp only [List.length_append, List.length_take, List.length_drop,
      varlengthSerialize_length, ← hLdef]
    omega
  congr 1
  have htake : (page.take off ++ (varlengthSerialize value.length ++ (page.drop off).drop L)).take (off + L)
      = page.take off ++ varlengthSerialize value.length := by
    rw [← List.append_assoc]
    apply List.take_left'
    simp only [List.length_append, List.length_take, varlengthSerialize_length, ← hLdef]
    omega
  have hdrop : (page.take off ++ (varlengthSerialize value.length ++ (page.drop off).drop L)).drop (off + L + value.length)
      = page.drop (off + L + value.length) := by
    rw [← List.append_assoc]
    have hlen2 : (page.take off ++ varlengthSerialize value.length).length = off + L := by
      simp only [List.length_append, List.length_take, varlengthSerialize_length, ← hLdef]
      omega
    have h1 : ((page.take off ++ varlengthSerialize value.length) ++ (page.drop off).drop L).drop (off + L + value.length)
        = ((page.drop off).drop L).drop value.length := by
      conv_lhs => rw [show off + L + value.length = (page.take off ++ varlengthSerialize value.length).length + value.length by rw [hlen2]]
      exact List.drop_append value.length
    rw [h1, List.drop_drop, List.drop_drop]
    congr 1
    omega
  rw [htake, hdrop]

theorem logWriteCore (bs : Nat) (page1 record : List Nat) (b1 : Nat)
    (hpl : page1.length = bs)
    (hbs31 : bs < 2 ^ 31)
    (hlo : record.length + 4 ≤ b1)
    (hhi : b1 ≤ bs)
    (hsmall : record.length < 2 ^ 28) :
    ∃ page2 page3,
      pageSetBytes page1 (castUsize ((b1 : Int) - ((record.length + 4 : Nat) : Int))) record
          = some page2 ∧
      pageSetI32 page2 0 ((b1 : Int) - ((record.length + 4 : Nat) : Int)) = some page3 ∧
      page3.length = bs ∧
      pageGetI32 page3 0 = some (((b1 - (record.length + 4) : Nat) : Int)) ∧
      (4 ≤ b1 - (record.length + 4) →
        (page3.drop (b1 - (record.length + 4))).take
            (varlengthSerializedLength record.length + record.length)
          = varlengthSerialize record.length ++ record) := by
  have hL4 : varlengthSerializedLength record.length ≤ 4 :=
    varlengthSerializedLength_le_four _ hsmall
  have hL1 : 1 ≤ varlengthSerializedLength record.length :=
    (varlengthSerializedLength_bounds _).1
  set L := varlengthSerializedLength record.length with hLdef
  set pos := b1 - (record.length + 4) with hposdef
  have hcast : (b1 : Int) - ((record.length + 4 : Nat) : Int) = ((pos : Nat) : Int) := by
    push_cast
    omega
  have hcu : castUsize ((b1 : Int) - ((record.length + 4 : Nat) : Int)) = pos := by
    rw [hcast]
    exact castUsize_natCast pos (by omega)
  have hsb := pageSetBytes_eq page1 pos record hsmall (by rw [hpl]; omega)
  set page2 := page1.take pos ++ varlengthSerialize record.length ++ record
      ++ page1.drop (pos + L + record.length) with hp2def
  have hp2len : page2.length = bs := by
    rw [hp2def]
    simp only [List.length_append, List.length_take, List.length_drop,
      varlengthSerialize_length, ← hLdef]
    omega
  have hsi := pageSetI32_zero_read page2 ((pos : Nat) : Int) (by omega) (by positivity) (by push_cast; omega)
  refine ⟨page2, leBytes 4 (twosComp32 ((pos : Nat) : Int)) ++ page2.drop 4, ?_, ?_, ?_, ?_, ?_⟩
  · rw [hcu, hsb]
  · rw [hcast]
    exact hsi.1
  · rw [hsi.2.1, hp2len]
  · exact hsi.2.2
  · intro h4
    have hgen : ∀ (xs ys : List Nat), xs.length = 4 → (xs ++ ys).drop pos = ys.drop (pos - 4) := by
      intro xs ys hxs
      conv_lhs => rw [show pos = xs.length + (pos - 4) by rw [hxs]; omega]
      exact List.drop_append _
    have hd1 : (leBytes 4 (twosComp32 ((pos : Nat) : Int)) ++ page2.drop 4).drop pos
        = page2.drop pos := by
      rw [hgen _ _ (leBytes_length 4 _), List.drop_drop]
      congr 1
      omega
    rw [hd1]
    have hd2 : page2.drop pos = varlengthSerialize record.length ++ (record
        ++ page1.drop (pos + L + record.length)) := by
      rw [hp2def]
      rw [List.append_assoc, List.append_assoc]
      apply List.drop_left'
      rw [List.length_take]
      omega
    rw [hd2]
    rw [List.take_append_eq_append_take]
    rw [List.take_of_length_le (by rw [varlengthSerialize_length, ← hLdef]; omega)]
    rw [varlengthSerialize_length, ← hLdef]
    have hLL : L + record.length - L = record.length := by omega
    rw [hLL, List.take_left' rfl]

theorem logAppend_writes (s : LogState) (record : List Nat) (b : Nat)
    (hpl : s.page.length = s.blockSize)
    (hb : pageGetI32 s.page 0 = some (b : Int))
    (hble : b ≤ s.blockSize)
    (hbs31 : s.blockSize < 2 ^ 31)
    (hlen : record.length + 4 ≤ s.blockSize)
    (hsmall : record.length < 2 ^ 28) :
    ∃ s1, logAppend s record
        = some (s1, s.latest + 1,
            if b < record.length + 8 then s.latest else s.lastSaved) ∧
      s1.blockSize = s.blockSize ∧
      s1.latest = s.latest + 1 ∧
      s1.page.length = s.blockSize ∧
      pageGetI32 s1.page 0
        = some ((((if b < record.length + 8 then s.blockSize else b)
            - (record.length + 4) : Nat) : Int)) ∧
      (4 ≤ (if b < record.length + 8 then s.blockSize else b) - (record.length + 4) →
        (s1.page.drop
            ((if b < record.length + 8 then s.blockSize else b) - (record.length + 4))).take
            (varlengthSerializedLength record.length + record.length)
          = varlengthSerialize record.length ++ record) := by
  unfold logAppend
  rw [hb]
  dsimp only
  rw [castUsize_natCast b (by omega)]
  by_cases hrot : b < record.length + 8
  · simp only [if_pos hrot]
    unfold appendNewBlock
    have hbsmod : s.blockSize % 2 ^ 32 = s.blockSize := by omega
    rw [hbsmod, toI32_small s.blockSize hbs31]
    have hsi1 := pageSetI32_zero_read s.page ((s.blockSize : Nat) : Int)
      (by omega) (by positivity) (by push_cast; omega)
    rw [hsi1.1]
    dsimp only
    rw [hsi1.2.2]
    dsimp only
    have hp1len : (leBytes 4 (twosComp32 ((s.blockSize : Nat) : Int)) ++ s.page.drop 4).length
        = s.blockSize := by
      rw [hsi1.2.1, hpl]
    obtain ⟨page2, page3, hsb, hsi3, hlen3, hget3, hseg⟩ :=
      logWriteCore s.blockSize (leBytes 4 (twosComp32 ((s.blockSize : Nat) : Int)) ++ s.page.drop 4)
        record s.blockSize hp1len hbs31 (by omega) (by omega) hsmall
    rw [hsb]
    dsimp only
    rw [hsi3]
    dsimp only
    exact ⟨_, rfl, rfl, rfl, hlen3, hget3, hseg⟩
  · simp only [if_neg hrot]
    obtain ⟨page2, page3, hsb, hsi3, hlen3, hget3, hseg⟩ :=
      logWriteCore s.blockSize s.page record b hpl hbs31 (by omega) hble hsmall
    rw [hsb]
    dsimp only
    rw [hsi3]
    dsimp only
    exact ⟨_, rfl, rfl, rfl, hlen3, hget3, hseg⟩

theorem pageGetI32_some_length (page : List Nat) (off : Nat) (x : Int)
    (h : pageGetI32 page off = some x) : off + 4 ≤ page.length := by
  unfold pageGetI32 at h
  by_cases hc : off + 4 ≤ page.length
  · exact hc
  · rw [if_neg hc] at h
    exact absurd h (by simp)

theorem varlengthSerializeBuffered_nil (v : Nat) :
    varlengthSerializeBuffered v [] = none := by
  have hb := varlengthSerializedLength_bounds v
  unfold varlengthSerializeBuffered
  dsimp only
  by_cases h1 : varlengthSerializedLength v ≤ 8
  · rw [if_pos h1, if_neg (by simp only [List.length_nil]; omega)]
  · rw [if_neg h1, if_neg (by simp)]

theorem pageSetBytes_none_of_oob (page : List Nat) (off : Nat) (value : List Nat)
    (h : page.length ≤ off) :
    pageSetBytes page off value = none := by
  unfold pageSetBytes
  rw [List.drop_eq_nil_of_le h, varlengthSerializeBuffered_nil]

/-- When the block cannot even hold the record plus its four-byte
boundary slot, the record position computation underflows, the usize
cast wraps to a huge offset, and set_bytes panics: append returns no
result. -/
theorem logAppend_panics (s : LogState) (record : List Nat) (b : Nat)
    (hpl : s.page.length = s.blockSize)
    (hb : pageGetI32 s.page 0 = some (b : Int))
    (hble : b ≤ s.blockSize)
    (hbs31 : s.blockSize < 2 ^ 31)
    (hrec31 : record.length < 2 ^ 31)
    (hsmallbs : s.blockSize < record.length + 4) :
    logAppend s record = none := by
  have h4 : 4 ≤ s.page.length := pageGetI32_some_length s.page 0 _ hb
  unfold logAppend
  rw [hb]
  dsimp only
  rw [castUsize_natCast b (by omega)]
  rw [if_pos (by omega)]
  unfold appendNewBlock
  have hbsmod : s.blockSize % 2 ^ 32 = s.blockSize := by omega
  rw [hbsmod, toI32_small s.blockSize hbs31]
  have hsi1 := pageSetI32_zero_read s.page ((s.blockSize : Nat) : Int)
    (by omega) (by positivity) (by push_cast; omega)
  rw [hsi1.1]
  dsimp only
  rw [hsi1.2.2]
  dsimp only
  have hp1len : (leBytes 4 (twosComp32 ((s.blockSize : Nat) : Int)) ++ s.page.drop 4).length
      = s.blockSize := by
    rw [hsi1.2.1, hpl]
  have hhuge : (leBytes 4 (twosComp32 ((s.blockSize : Nat) : Int)) ++ s.page.drop 4).length
      ≤ castUsize (((s.blockSize : Nat) : Int) - ((record.length + 4 : Nat) : Int)) := by
    rw [hp1len]
    unfold castUsize
    omega
  rw [pageSetBytes_none_of_oob _ _ _ hhuge]

/-- C10 amended: append panics exactly when the block size is below
record length + 4 (the record position underflows and the usize cast
sends set_bytes out of range); whenever block size is at least record
length + 4 the append returns successfully, even between record
length + 4 and record length + 8 where the claim expected a panic;
and when record length + 8 fits the block every successful append
leaves the stored head boundary within [4, block_size]. -/
theorem c10_append_panic_and_boundary :
    (∀ (s : LogState) (record : List Nat) (b : Nat),
      s.page.length = s.blockSize →
      pageGetI32 s.page 0 = some (b : Int) →
      b ≤ s.blockSize →
      s.blockSize < 2 ^ 31 →
      record.length < 2 ^ 31 →
      s.blockSize < record.length + 4 →
      logAppend s record = none) ∧
    (∀ (s : LogState) (record : List Nat) (b : Nat),
      s.page.length = s.blockSize →
      pageGetI32 s.page 0 = some (b : Int) →
      b ≤ s.blockSize →
      s.blockSize < 2 ^ 31 →
      record.length < 2 ^ 28 →
      record.length + 4 ≤ s.blockSize →
      (logAppend s record).isSome = true) ∧
    (∀ (s : LogState) (record : List Nat) (b : Nat),
      s.page.length = s.blockSize →
      pageGetI32 s.page 0 = some (b : Int) →
      b ≤ s.blockSize →
      s.blockSize < 2 ^ 31 →
      record.length < 2 ^ 28 →
      record.length + 8 ≤ s.blockSize →
      ∃ s1 latest1 saved1 b1,
        logAppend s record = some (s1, latest1, saved1) ∧
        pageGetI32 s1.page 0 = some ((b1 : Nat) : Int) ∧
        4 ≤ b1 ∧ b1 ≤ s.blockSize ∧
        s1.page.length = s1.blockSize ∧ s1.blockSize = s.blockSize) := by
  refine ⟨logAppend_panics, ?_, ?_⟩
  · intro s record b hpl hb hble hbs31 hsmall hlen
    obtain ⟨s1, happ, _⟩ := logAppend_writes s record b hpl hb hble hbs31 hlen hsmall
    rw [happ]
    rfl
  · intro s record b hpl hb hble hbs31 hsmall hlen8
    obtain ⟨s1, happ, hbseq, hlat, hplen, hget, hseg⟩ :=
      logAppend_writes s record b hpl hb hble hbs31 (by omega) hsmall
    refine ⟨s1, s.latest + 1, _, _, happ, hget, ?_, ?_, ?_, hbseq⟩
    · split_ifs with hrot <;> omega
    · split_ifs with hrot <;> omega
    · rw [hplen, hbseq]

/-- Witness for the C10 amended theorem: with block size 6 the
three-byte record panics (6 < 3 + 4), the two-byte record appends
successfully (6 is at least 2 + 4), and with block size 16 a one-byte
record keeps the boundary at 11, inside [4, 16]. -/
theorem c10_append_panic_and_boundary_witness :
    logAppend ⟨6, [6, 0, 0, 0, 0, 0], 0, 0, 0, [[6, 0, 0, 0, 0, 0]]⟩ [9, 9, 9] = none ∧
    (logAppend ⟨6, [6, 0, 0, 0, 0, 0], 0, 0, 0, [[6, 0, 0, 0, 0, 0]]⟩ [9, 9]).isSome = true ∧
    (∃ s1 latest1 saved1 b1,
      logAppend ⟨16, [16, 0, 0, 0, 0, 0, 0, 0, 0, 0, 0, 0, 0, 0, 0, 0], 0, 0, 0, [[16, 0, 0, 0, 0, 0, 0, 0, 0, 0, 0, 0, 0, 0, 0, 0]]⟩ [7]
        = some (s1, latest1, saved1) ∧
      pageGetI32 s1.page 0 = some ((b1 : Nat) : Int) ∧
      4 ≤ b1 ∧ b1 ≤ 16 ∧ s1.page.length = s1.blockSize ∧ s1.blockSize = 16) :=
  ⟨c10_append_panic_and_boundary.1 _ [9, 9, 9] 6 (by decide) (by decide) (by decide)
      (by decide) (by decide) (by decide),
   c10_append_panic_and_boundary.2.1 _ [9, 9] 6 (by decide) (by decide) (by decide)
      (by decide) (by decide) (by decide),
   c10_append_panic_and_boundary.2.2 _ [7] 16 (by decide) (by decide) (by decide)
      (by decide) (by decide) (by decide)⟩

/-- C4 amended: the bytes placed at the record position are the
Varcount encoding of the record length followed by the record bytes;
the reserved region [record_pos, record_pos + 4 + record_len) still
ends at the previous boundary (or at block_size after a rotation), and
the new boundary stored at offset 0 equals record_pos. -/
theorem c4_record_layout (s : LogState) (record : List Nat) (b : Nat)
    (hpl : s.page.length = s.blockSize)
    (hb : pageGetI32 s.page 0 = some (b : Int))
    (hble : b ≤ s.blockSize)
    (hbs31 : s.blockSize < 2 ^ 31)
    (hsmall : record.length < 2 ^ 28)
    (hlen8 : record.length + 8 ≤ s.blockSize) :
    ∃ s1 pos,
      logAppend s record
        = some (s1, s.latest + 1, if b < record.length + 8 then s.latest else s.lastSaved) ∧
      pos = (if b < record.length + 8 then s.blockSize else b) - (record.length + 4) ∧
      (s1.page.drop pos).take (varlengthSerializedLength record.length + record.length)
        = varlengthSerialize record.length ++ record ∧
      pageGetI32 s1.page 0 = some ((pos : Nat) : Int) ∧
      4 ≤ pos ∧ pos + (4 + record.length) ≤ s.blockSize := by
  obtain ⟨s1, happ, hbseq, hlat, hplen, hget, hseg⟩ :=
    logAppend_writes s record b hpl hb hble hbs31 (by omega) hsmall
  refine ⟨s1, _, happ, rfl, ?_, hget, ?_, ?_⟩
  · apply hseg
    split_ifs with hrot <;> omega
  · split_ifs with hrot <;> omega
  · split_ifs with hrot <;> omega

/-- Witness for the C4 amended theorem: block size 16, record with
the single byte 7; the record lands at position 11 as the bytes 1, 7
and the boundary becomes 11. -/
theorem c4_record_layout_witness :
    ∃ s1 pos,
      logAppend ⟨16, [16, 0, 0, 0, 0, 0, 0, 0, 0, 0, 0, 0, 0, 0, 0, 0], 0, 0, 0, [[16, 0, 0, 0, 0, 0, 0, 0, 0, 0, 0, 0, 0, 0, 0, 0]]⟩ [7]
        = some (s1, 0 + 1, if 16 < 1 + 8 then 0 else 0) ∧
      pos = (if 16 < 1 + 8 then 16 else 16) - (1 + 4) ∧
      (s1.page.drop pos).take (varlengthSerializedLength 1 + 1)
        = varlengthSerialize 1 ++ [7] ∧
      pageGetI32 s1.page 0 = some ((pos : Nat) : Int) ∧
      4 ≤ pos ∧ pos + (4 + 1) ≤ 16 :=
  c4_record_layout ⟨16, [16, 0, 0, 0, 0, 0, 0, 0, 0, 0, 0, 0, 0, 0, 0, 0], 0, 0, 0, [[16, 0, 0, 0, 0, 0, 0, 0, 0, 0, 0, 0, 0, 0, 0, 0]]⟩ [7] 16
    (by decide) (by decide) (by decide) (by decide) (by decide) (by decide)

end HanfriedDb
